import Mathlib

/-!
Verification development for the Instagram data extractor repository.

Strings from the Python source are modelled as `List Char`; every function
is a direct shallow embedding of the corresponding Python function (the
embedded source file and function are named in each doc comment).  External
collaborators (the spreadsheet store, the Instaloader fetcher, the clock and
the random user-agent choice) are passed in as explicit parameters or
oracles, following the repository spec's own decomposition into a `JobStore`
and a `ContentFetcher`.
-/

namespace InstaExtract

/-! ## Basic character and string helpers -/

/-- Whitespace characters recognised by Python's `str.strip()` / `str.split()`
(restricted to the ASCII whitespace set). -/
def isWs (c : Char) : Bool :=
  c = ' ' || c = '\t' || c = '\n' || c = '\r' || c = '\x0b' || c = '\x0c'

/-- Characters matched by the regex character class `[A-Za-z0-9_-]` used by
the shortcode patterns in `_extract_shortcode`. -/
def isShortcodeChar (c : Char) : Bool :=
  ('A' ≤ c && c ≤ 'Z') || ('a' ≤ c && c ≤ 'z') || ('0' ≤ c && c ≤ '9')
    || c = '_' || c = '-'

/-- Word characters matched by the regex class `\w` in `#\w+`
(ASCII approximation). -/
def isWordChar (c : Char) : Bool :=
  ('A' ≤ c && c ≤ 'Z') || ('a' ≤ c && c ≤ 'z') || ('0' ≤ c && c ≤ '9') || c = '_'

/-- Python `str.strip()`: drop leading and trailing whitespace. -/
def pystrip (s : List Char) : List Char :=
  ((s.dropWhile isWs).reverse.dropWhile isWs).reverse

/-- Python's substring test `needle in hay`. -/
def containsSubstr (needle : List Char) : List Char → Bool
  | [] => needle.isEmpty
  | c :: cs => needle.isPrefixOf (c :: cs) || containsSubstr needle cs

/-! ## IdentifierParser: `_extract_shortcode`

`re.search(r'/tag/([A-Za-z0-9_-]+)', url)` for a literal path tag:
scan left to right for the first position where the literal tag occurs and is
followed by at least one character of the class; the capture is the maximal
run of class characters after the tag. -/

/-- One `re.search` over the string for the pattern `tag([A-Za-z0-9_-]+)`:
returns the captured group of the leftmost match, or `none`. -/
def searchPat (tag : List Char) : List Char → Option (List Char)
  | [] => none
  | c :: cs =>
    if tag.isPrefixOf (c :: cs) then
      match ((c :: cs).drop tag.length).takeWhile isShortcodeChar with
      | [] => searchPat tag cs
      | d :: r => some (d :: r)
    else searchPat tag cs

def pTag : List Char := "/p/".data

def reelTag : List Char := "/reel/".data

def tvTag : List Char := "/tv/".data

def reelsTag : List Char := "/reels/".data

/-- `PersistentInstagramExtractor._extract_shortcode`
(src/instagram_extractor_persistent.py, lines 105-118): strip the URL, then
try the patterns `/p/`, `/reel/`, `/tv/` in order; first match wins. -/
def extract_shortcode (url : List Char) : Option (List Char) :=
  let u := pystrip url
  match searchPat pTag u with
  | some r => some r
  | none =>
    match searchPat reelTag u with
    | some r => some r
    | none => searchPat tvTag u

/-- `ProfessionalInstagramExtractor._extract_shortcode`
(src/instagram_extractor_professional.py, lines 115-131): same, with a fourth
`/reels/` pattern. -/
def extract_shortcode_professional (url : List Char) : Option (List Char) :=
  let u := pystrip url
  match searchPat pTag u with
  | some r => some r
  | none =>
    match searchPat reelTag u with
    | some r => some r
    | none =>
      match searchPat tvTag u with
      | some r => some r
      | none => searchPat reelsTag u

/-! ## AttributeNormalizer: `_clean_caption` -/

/-- Helper for Python `str.split()`: accumulate the current token (reversed)
and emit it at each whitespace boundary. -/
def splitWsAux : List Char → List Char → List (List Char)
  | [], acc => if acc.isEmpty then [] else [acc.reverse]
  | c :: cs, acc =>
    if isWs c then
      if acc.isEmpty then splitWsAux cs [] else acc.reverse :: splitWsAux cs []
    else splitWsAux cs (c :: acc)

/-- Python `str.split()` with no separator: whitespace-delimited tokens,
empty tokens dropped. -/
def pysplit (s : List Char) : List (List Char) := splitWsAux s []

/-- Python `' '.join(tokens)`. -/
def joinSpace : List (List Char) → List Char
  | [] => []
  | [w] => w
  | w :: ws => w ++ ' ' :: joinSpace ws

/-- Python `' '.join(s.split())` — the source's whitespace normalisation. -/
def collapseWs (s : List Char) : List Char := joinSpace (pysplit s)

/-- `PersistentInstagramExtractor._clean_caption`
(src/instagram_extractor_persistent.py, lines 196-204): falsy (absent or
empty) caption becomes the sentinel; otherwise whitespace is normalised via
`' '.join(split())` and the result truncated at 150 characters with a `...`
marker. -/
def clean_caption (caption : Option (List Char)) : List Char :=
  match caption with
  | none => "No caption".data
  | some s =>
    if s.isEmpty then "No caption".data
    else
      let cleaned := collapseWs s
      if cleaned.length > 150 then cleaned.take 150 ++ "...".data
      else cleaned

/-- Modelled from the spec (refinement reference for claim C8): the literal
reading of "collapse every run of whitespace into a single space" — each
maximal whitespace run, including a leading or trailing one, is replaced by
exactly one space.  The flag records whether the previous character was
whitespace. -/
def specCollapseAux : Bool → List Char → List Char
  | _, [] => []
  | prevWs, c :: cs =>
    if isWs c then
      if prevWs then specCollapseAux true cs else ' ' :: specCollapseAux true cs
    else c :: specCollapseAux false cs

/-- Modelled from the spec (refinement reference for claim C8): replace every
maximal whitespace run by a single space, wherever it occurs. -/
def specCollapse (s : List Char) : List Char := specCollapseAux false s

/-! ## The remote fetch model

One call to `instaloader.Post.from_shortcode` either yields a post object or
raises.  The exceptions distinguished by the source are modelled as failure
kinds; everything the persistent extractor's generic `except Exception`
catches (network errors, not-found responses, denied access, parsing
failures) still lands in this taxonomy. -/

inductive FailureKind where
  /-- `instaloader.exceptions.TooManyRequestsException` -/
  | rateLimited
  /-- the remote reports the content does not exist
  (`PostUnavailableException` and kin) -/
  | notFound
  /-- the remote denies access (`LoginRequiredException` and kin) -/
  | accessDenied
  /-- any other exception (network, timeout, unclassified) -/
  | transient
  deriving DecidableEq, Repr

/-- The raw attributes of a successfully fetched post, as read off the
`instaloader` post object by the extractors. -/
structure RawPost where
  account : List Char
  likes : Nat
  comments : Nat
  views : Nat
  isVideo : Bool
  /-- `post.caption`; `none` models Python `None` -/
  caption : Option (List Char)
  /-- `post.location.name` when a location is attached -/
  location : Option (List Char)
  /-- the post date, already rendered to the IST display format;
  `none` models an absent `post.date` -/
  postedDate : Option (List Char)
  deriving DecidableEq, Repr

/-- Result of one fetch attempt. -/
inductive FetchResult where
  | ok (post : RawPost)
  | err (kind : FailureKind)
  deriving DecidableEq, Repr

/-- One fetch attempt as a pure oracle: shortcode and (0-based) attempt index
within the current job determine the outcome. -/
def Fetch : Type := List Char → Nat → FetchResult

/-- Count of `re.findall(r'#\w+', caption)` matches: positions where `#` is
followed by a word character (each maximal `#\w+` match contains exactly one
such position). -/
def countHashtags : List Char → Nat
  | [] => 0
  | [_] => 0
  | c :: d :: rest =>
    (if c = '#' && isWordChar d then 1 else 0) + countHashtags (d :: rest)

/-- The normalized data dictionary built by
`_extract_post_data_with_retries` on a successful fetch
(src/instagram_extractor_persistent.py, lines 164-180). -/
structure PostData where
  account : List Char
  likes : Nat
  comments : Nat
  views : Nat
  type : List Char
  posted_date : List Char
  caption : List Char
  hashtags : Nat
  location : List Char
  last_fetched : List Char
  last_updated : List Char
  deriving DecidableEq, Repr

/-- Build the `data` dictionary from a fetched post and the current IST
timestamp, exactly as the persistent extractor does. -/
def buildData (p : RawPost) (ts : List Char) : PostData :=
  { account := p.account
    likes := p.likes
    comments := p.comments
    views := if p.isVideo && !(p.views = 0) then p.views else 0
    type := if p.isVideo then "Video/Reel".data else "Photo".data
    posted_date := p.postedDate.getD "Unknown".data
    caption := clean_caption p.caption
    hashtags := match p.caption with
      | none => 0
      | some c => if c.isEmpty then 0 else countHashtags c
    location := p.location.getD "Not specified".data
    last_fetched := ts
    last_updated := ts }

/-! ## RetryPolicy: `_extract_post_data_with_retries` -/

/-- The fetch identity of one attempt: the session's default loader for the
first attempt, or a freshly built loader (`_create_fresh_loader`) with one of
the three randomized user-agent strings for later attempts. -/
inductive Identity where
  | defaultSession
  | rotated (ua : Fin 3)
  deriving DecidableEq, Repr

/-- `self.max_retries_per_url` (src/instagram_extractor_persistent.py,
line 36). -/
def max_retries_per_url : Nat := 5

/-- The loop body of `_extract_post_data_with_retries`
(src/instagram_extractor_persistent.py, lines 148-191): run attempts starting
at index `a` with `fuel` iterations left; returns the extracted data (if
any), whether a fetch succeeded, and the identity used by each performed
attempt.  Every failure kind falls through to the next attempt — both the
`TooManyRequestsException` branch and the generic `except Exception` branch
end in `continue`. -/
def retryAux (fetch : Fetch) (rng : Nat → Fin 3) (sc ts : List Char) :
    Nat → Nat → Option PostData × Bool × List Identity
  | _, 0 => (none, false, [])
  | a, fuel + 1 =>
    let ident := if a = 0 then Identity.defaultSession else Identity.rotated (rng a)
    match fetch sc a with
    | .ok p => (some (buildData p ts), true, [ident])
    | .err _ =>
      let rest := retryAux fetch rng sc ts (a + 1) fuel
      (rest.1, rest.2.1, ident :: rest.2.2)

/-- Outcome of `_extract_post_data_with_retries` for one job: the data (on
success), the status string, the returned cumulative retry count, and the
trace of identities used by the fetch attempts actually performed. -/
structure RetryOutcome where
  data : Option PostData
  status : List Char
  retryCount : Nat
  attempts : List Identity
  deriving DecidableEq, Repr

/-- `PersistentInstagramExtractor._extract_post_data_with_retries`
(src/instagram_extractor_persistent.py, lines 142-194).  An unparsable URL
returns `("INVALID_URL", retry_count)` with no fetch performed; otherwise up
to `max_retries_per_url` fetch attempts run, the first with the default
session loader and later ones with a fresh randomized loader; success at
attempt `a` returns `retry_count + a + 1`, exhaustion returns
`"ALL_RETRIES_FAILED"` and `retry_count + max_retries_per_url`. -/
def extract_post_data_with_retries (fetch : Fetch) (rng : Nat → Fin 3)
    (ts url : List Char) (retry_count : Nat) : RetryOutcome :=
  match extract_shortcode url with
  | none => ⟨none, "INVALID_URL".data, retry_count, []⟩
  | some sc =>
    let r := retryAux fetch rng sc ts 0 max_retries_per_url
    if r.2.1 then ⟨r.1, "SUCCESS".data, retry_count + r.2.2.length, r.2.2⟩
    else ⟨none, "ALL_RETRIES_FAILED".data, retry_count + r.2.2.length, r.2.2⟩

/-! ## The professional single-attempt extractor -/

/-- Result of the single fetch performed by
`_extract_post_data_professional`, with the exception classes that function
distinguishes. -/
inductive ProFetchResult where
  | ok (post : RawPost)
  /-- `instaloader.exceptions.PostUnavailableException` -/
  | postUnavailable
  /-- `instaloader.exceptions.LoginRequiredException` -/
  | loginRequired
  /-- any other exception -/
  | otherError
  deriving DecidableEq, Repr

/-- `ProfessionalInstagramExtractor._clean_caption_professional`
(src/instagram_extractor_professional.py, lines 177-193).  The
`unicodedata.category(char)[0] != 'So'` filter compares a one-character
category initial with the two-character string `'So'`, which is always true,
so the filter keeps every character; the function reduces to whitespace
normalisation plus the 150-character truncation. -/
def clean_caption_professional (caption : Option (List Char)) : List Char :=
  match caption with
  | none => "No caption".data
  | some s =>
    if s.isEmpty then "No caption".data
    else
      let normalized := collapseWs s
      if normalized.length > 150 then normalized.take 150 ++ "...".data
      else normalized

/-- Outcome of `_extract_post_data_professional`: data, status string, and
the number of fetch attempts performed. -/
structure ProOutcome where
  data : Option PostData
  status : List Char
  fetchCount : Nat
  deriving DecidableEq, Repr

/-- Data dictionary of the professional extractor
(src/instagram_extractor_professional.py, lines 150-162) — identical to the
persistent one except for the caption cleaner. -/
def buildDataPro (p : RawPost) (ts : List Char) : PostData :=
  { account := p.account
    likes := p.likes
    comments := p.comments
    views := if p.isVideo && !(p.views = 0) then p.views else 0
    type := if p.isVideo then "Video/Reel".data else "Photo".data
    posted_date := p.postedDate.getD "Unknown".data
    caption := clean_caption_professional p.caption
    hashtags := match p.caption with
      | none => 0
      | some c => if c.isEmpty then 0 else countHashtags c
    location := p.location.getD "Not specified".data
    last_fetched := ts
    last_updated := ts }

/-- `ProfessionalInstagramExtractor._extract_post_data_professional`
(src/instagram_extractor_professional.py, lines 133-175): parse the
shortcode, then perform exactly one fetch attempt; the distinguished
exception classes map to terminal status strings and nothing is ever
retried. -/
def extract_post_data_professional (fetch : List Char → ProFetchResult)
    (ts url : List Char) : ProOutcome :=
  match extract_shortcode_professional url with
  | none => ⟨none, "INVALID_URL".data, 0⟩
  | some sc =>
    match fetch sc with
    | .ok p => ⟨some (buildDataPro p ts), "SUCCESS".data, 1⟩
    | .postUnavailable => ⟨none, "POST_UNAVAILABLE".data, 1⟩
    | .loginRequired => ⟨none, "LOGIN_REQUIRED".data, 1⟩
    | .otherError => ⟨none, "EXTRACTION_ERROR".data, 1⟩

/-! ## The JobStore model

`get_all_values()` returns the worksheet as a list of rows of cell strings
(row 1 is the header).  A sheet row number `r` corresponds to list index
`r - 1`.  `worksheet.update(range, [row_data])` replaces the row's cells with
the given list; the store accepts the row as given (whole-row replacement,
per the spec's `JobStore.writeRow`). -/

/-- One spreadsheet row: a list of cell strings. -/
abbrev Row : Type := List (List Char)

/-- The whole table, header row included. -/
abbrev Store : Type := List Row

/-- Replace sheet row `r` (1-based) of the store. -/
def writeRow (st : Store) (r : Nat) (row : Row) : Store :=
  List.set (α := Row) st (r - 1) row

/-- Python `f"{n:,}"` for a natural number: decimal digits with a comma
every three digits.  `groupRev` walks the reversed digit list, counting down
to the next comma position. -/
def groupRev : Nat → List Char → List Char
  | _, [] => []
  | 0, c :: cs => ',' :: c :: groupRev 2 cs
  | Nat.succ k, c :: cs => c :: groupRev k cs

def fmtGrouped (n : Nat) : List Char :=
  (groupRev 3 (toString n).data.reverse).reverse

/-- `PersistentInstagramExtractor._update_sheet_row`
(src/instagram_extractor_persistent.py, lines 206-252), as the row contents
it sends to the store.  On `SUCCESS` with data, all fourteen columns are
filled from the data dictionary.  Otherwise the row is
`[url] + [''] * 11 + [status_message, current_ist, str(retry_count)]` — note
this list has fifteen cells (one more than the fourteen headers), so the
status message lands at index 12 and the Processing Status column
(index 11) is written empty. -/
def update_sheet_row (url : List Char) (data : Option PostData)
    (status : List Char) (retryCount : Nat) (ts : List Char) : Row :=
  match data with
  | some d =>
    if status = "SUCCESS".data then
      [url, '@' :: d.account, fmtGrouped d.likes, fmtGrouped d.comments,
       fmtGrouped d.views, d.type, d.posted_date, d.caption,
       (toString d.hashtags).data, d.location, d.last_fetched,
       "✅ SUCCESS".data, ts, (toString retryCount).data]
    else
      [url, [], [], [], [], [], [], [], [], [], [], [],
       (if status = "ALL_RETRIES_FAILED".data then "❌ Failed after all retries".data
        else "❌ Processing failed".data), ts, (toString retryCount).data]
  | none =>
    [url, [], [], [], [], [], [], [], [], [], [], [],
     (if status = "ALL_RETRIES_FAILED".data then "❌ Failed after all retries".data
      else "❌ Processing failed".data), ts, (toString retryCount).data]

/-- A row whose Processing Status column (index 11) contains the substring
`"✅ SUCCESS"` — the condition `_collect_failed_urls` uses to skip a row. -/
def isSuccessRow (row : Row) : Bool :=
  containsSubstr "✅ SUCCESS".data (List.getD (α := List Char) row 11 [])

/-- The stripped contents of a row's URL cell. -/
def rowUrl (row : Row) : List Char :=
  pystrip (List.getD (α := List Char) row 0 [])

/-- The per-row condition of `_collect_failed_urls`
(src/instagram_extractor_persistent.py, lines 258-267): the row is nonempty,
its stripped URL cell is nonempty, starts with `http`, contains
`instagram.com`, and the status cell does not contain `✅ SUCCESS`. -/
def rowPending (row : Row) : Bool :=
  match List.head? (α := List Char) row with
  | none => false
  | some c0 =>
    let url := pystrip c0
    !url.isEmpty && "http".data.isPrefixOf url
      && containsSubstr "instagram.com".data url
      && !containsSubstr "✅ SUCCESS".data (List.getD (α := List Char) row 11 [])

/-- The enumeration inside `_collect_failed_urls`: walk the data rows with
their 1-based sheet row numbers (starting at 2) and keep the pending ones,
paired with their stripped URL. -/
def collectAux : Nat → List Row → List (Nat × List Char)
  | _, [] => []
  | i, row :: rest =>
    if rowPending row then (i, rowUrl row) :: collectAux (i + 1) rest
    else collectAux (i + 1) rest

/-- `PersistentInstagramExtractor._collect_failed_urls`
(src/instagram_extractor_persistent.py, lines 254-269). -/
def collect_failed_urls (allData : Store) : List (Nat × List Char) :=
  collectAux 2 (List.drop 1 allData)

/-- The URL-collection loop of `process_all_urls_professional`
(src/instagram_extractor_professional.py, lines 270-274): same filter but
without the status check — every valid Instagram URL row is selected. -/
def collectAuxPro : Nat → List Row → List (Nat × List Char)
  | _, [] => []
  | i, row :: rest =>
    (match List.head? (α := List Char) row with
      | none => collectAuxPro (i + 1) rest
      | some c0 =>
        let url := pystrip c0
        if !url.isEmpty && "http".data.isPrefixOf url
            && containsSubstr "instagram.com".data url
        then (i, url) :: collectAuxPro (i + 1) rest
        else collectAuxPro (i + 1) rest)

def collect_urls_professional (allData : Store) : List (Nat × List Char) :=
  collectAuxPro 2 (List.drop 1 allData)

/-! ## ReconciliationEngine: `process_urls_persistently` -/

/-- `self.max_total_attempts` (src/instagram_extractor_persistent.py,
line 37): the batch-attempt ceiling. -/
def max_total_attempts : Nat := 3

/-- The inner loop of `process_urls_persistently`
(src/instagram_extractor_persistent.py, lines 300-319): process each
collected `(row, url)` job in order — run the retry loop, write the outcome
row back immediately — and count the successes.  Also returns the trace of
`(row, status)` pairs, one per processed job.  The clock is frozen to `ts`
for the run (timestamps never influence control flow). -/
def processJobs (fetch : Fetch) (rng : Nat → Fin 3) (ts : List Char) :
    List (Nat × List Char) → Store → Store × Nat × List (Nat × List Char)
  | [], st => (st, 0, [])
  | (r, url) :: rest, st =>
    let o := extract_post_data_with_retries fetch rng ts url 0
    let st1 := writeRow st r (update_sheet_row url o.data o.status o.retryCount ts)
    let k := processJobs fetch rng ts rest st1
    (k.1, (if o.status = "SUCCESS".data then 1 else 0) + k.2.1,
      (r, o.status) :: k.2.2)

/-- The batch loop of `process_urls_persistently`
(src/instagram_extractor_persistent.py, lines 271-342): up to
`max_total_attempts` passes; each pass re-reads the store, returns `0`
immediately when only the header is present, returns the running total when
no pending jobs remain, otherwise processes every pending job and stops
early once the batch left no failures.  Returns the final store, the
cumulative success count, and the concatenated job trace. -/
def persistAux (fetch : Fetch) (rng : Nat → Fin 3) (ts : List Char) :
    Nat → Nat → Store → Store × Nat × List (Nat × List Char)
  | 0, total, st => (st, total, [])
  | fuel + 1, total, st =>
    if st.length ≤ 1 then (st, 0, [])
    else
      let failed := collect_failed_urls st
      if failed.isEmpty then (st, total, [])
      else
        let b := processJobs fetch rng ts failed st
        if failed.length - b.2.1 = 0 then (b.1, total + b.2.1, b.2.2)
        else
          let k := persistAux fetch rng ts fuel (total + b.2.1) b.1
          (k.1, k.2.1, b.2.2 ++ k.2.2)

/-- `PersistentInstagramExtractor.process_urls_persistently`
(src/instagram_extractor_persistent.py, lines 271-342). -/
def process_urls_persistently (fetch : Fetch) (rng : Nat → Fin 3)
    (ts : List Char) (st : Store) : Store × Nat × List (Nat × List Char) :=
  persistAux fetch rng ts max_total_attempts 0 st

/-- The selection predicate of `process_all_urls_realtime`
(src/instagram_data_extractor.py, line 219): with the `FORCE_REFRESH` flag
set, every row is processed; otherwise rows already marked `⚡ Fresh Data`
are skipped. -/
def should_process_realtime (forceRefresh : Bool) (row : Row) : Bool :=
  forceRefresh || decide (row.length < 12)
    || !containsSubstr "⚡ Fresh Data".data (List.getD (α := List Char) row 11 [])

/-! ## Fallible store reads

`get_all_values()` can raise.  In `process_urls_persistently` the whole
batch body sits in a `try`, and the handler sleeps and `continue`s to the
next batch attempt (src/instagram_extractor_persistent.py, lines 335-339);
in `process_all_urls_professional` the handler returns `0`
(src/instagram_extractor_professional.py, lines 320-322).  Reads are
modelled as an oracle indexed by batch attempt; the second component of the
result counts the read attempts performed. -/

def persistAuxR (read : Nat → Option Store) (fetch : Fetch)
    (rng : Nat → Fin 3) (ts : List Char) :
    Nat → Nat → Nat → Nat × Nat
  | _, 0, total => (total, 0)
  | bi, fuel + 1, total =>
    match read bi with
    | none =>
      let k := persistAuxR read fetch rng ts (bi + 1) fuel total
      (k.1, k.2 + 1)
    | some allData =>
      if allData.length ≤ 1 then (0, 1)
      else
        let failed := collect_failed_urls allData
        if failed.isEmpty then (total, 1)
        else
          let b := processJobs fetch rng ts failed allData
          if failed.length - b.2.1 = 0 then (total + b.2.1, 1)
          else
            let k := persistAuxR read fetch rng ts (bi + 1) fuel (total + b.2.1)
            (k.1, k.2 + 1)

/-- `process_urls_persistently` with fallible reads: returns the value the
function returns to its caller and the number of full-table reads attempted.
The catch-all `except` around the batch body means the function always
returns normally. -/
def process_urls_persistently_reads (read : Nat → Option Store)
    (fetch : Fetch) (rng : Nat → Fin 3) (ts : List Char) : Nat × Nat :=
  persistAuxR read fetch rng ts 0 max_total_attempts 0

/-- `process_all_urls_professional` with a fallible read
(src/instagram_extractor_professional.py, lines 254-322): a read failure is
caught by the surrounding `except`, which logs and returns `0`; on a
successful read every valid URL row is processed once and the function
returns the number of processed rows.  Returns (return value, reads
attempted). -/
def process_all_urls_professional_reads (read : Option Store)
    (_fetch : List Char → ProFetchResult) (_ts : List Char) : Nat × Nat :=
  match read with
  | none => (0, 1)
  | some allData =>
    if allData.length ≤ 1 then (0, 1)
    else ((collect_urls_professional allData).length, 1)

/-! ## Lemmas about the retry loop -/

/-- The identity trace of a run of the retry loop in which every attempt
fails: attempt 0 uses the default session, attempt `a ≥ 1` a rotated
loader. -/
def failTrace (rng : Nat → Fin 3) : Nat → Nat → List Identity
  | _, 0 => []
  | a, fuel + 1 =>
    (if a = 0 then Identity.defaultSession else Identity.rotated (rng a))
      :: failTrace rng (a + 1) fuel

lemma failTrace_length (rng : Nat → Fin 3) :
    ∀ fuel a, (failTrace rng a fuel).length = fuel := by
  intro fuel
  induction fuel with
  | zero => intro a; simp [failTrace]
  | succ n ih => intro a; simp [failTrace, ih (a + 1)]

lemma retryAux_fail_all (fetch : Fetch) (rng : Nat → Fin 3) (sc ts : List Char)
    (h : ∀ a, ∃ k, fetch sc a = FetchResult.err k) :
    ∀ fuel a, retryAux fetch rng sc ts a fuel = (none, false, failTrace rng a fuel) := by
  intro fuel
  induction fuel with
  | zero => intro a; simp [retryAux, failTrace]
  | succ n ih =>
    intro a
    obtain ⟨k, hk⟩ := h a
    simp [retryAux, hk, ih (a + 1), failTrace]

lemma retryAux_head_ident (fetch : Fetch) (rng : Nat → Fin 3) (sc ts : List Char)
    (fuel a : Nat) (hf : 0 < fuel) :
    (retryAux fetch rng sc ts a fuel).2.2.head? =
      some (if a = 0 then Identity.defaultSession else Identity.rotated (rng a)) := by
  cases fuel with
  | zero => omega
  | succ n =>
    cases hk : fetch sc a with
    | ok p => simp [retryAux, hk]
    | err k => simp [retryAux, hk]

lemma retryAux_tail_rotated (fetch : Fetch) (rng : Nat → Fin 3) (sc ts : List Char) :
    ∀ fuel a, 1 ≤ a →
      ∀ x ∈ (retryAux fetch rng sc ts a fuel).2.2, ∃ u, x = Identity.rotated u := by
  intro fuel
  induction fuel with
  | zero => intro a _ x hx; simp [retryAux] at hx
  | succ n ih =>
    intro a ha x hx
    cases hk : fetch sc a with
    | ok p =>
      simp [retryAux, hk] at hx
      exact ⟨rng a, by simp [hx, show a ≠ 0 by omega]⟩
    | err k =>
      simp [retryAux, hk] at hx
      rcases hx with hx | hx
      · exact ⟨rng a, by simp [hx, Nat.ne_of_gt ha]⟩
      · exact ih (a + 1) (by omega) x hx

lemma retryAux_drop_one_rotated (fetch : Fetch) (rng : Nat → Fin 3)
    (sc ts : List Char) (fuel : Nat) :
    ∀ x ∈ (retryAux fetch rng sc ts 0 fuel).2.2.tail, ∃ u, x = Identity.rotated u := by
  cases fuel with
  | zero => intro x hx; simp [retryAux] at hx
  | succ n =>
    cases hk : fetch sc 0 with
    | ok p => intro x hx; simp [retryAux, hk] at hx
    | err k =>
      intro x hx
      simp only [retryAux, hk] at hx
      exact retryAux_tail_rotated fetch rng sc ts n 1 (by omega) x hx

/-! ## Claim theorems: the retry loop -/

/-- Claim C1, confirmed.  For a job whose raw reference parses to a
shortcode, if every fetch attempt fails (in particular with a `TRANSIENT`
failure), `_extract_post_data_with_retries` performs exactly
`max_retries_per_url = 5` fetch attempts, ends in status
`"ALL_RETRIES_FAILED"` (the code's realisation of the spec's
`FAILED_EXHAUSTED` state), and returns an attempt count increased by exactly
five. -/
theorem C1_retry_ceiling (fetch : Fetch) (rng : Nat → Fin 3) (ts url : List Char)
    (rc : Nat) (hparse : (extract_shortcode url).isSome = true)
    (hfail : ∀ sc a, fetch sc a = FetchResult.err FailureKind.transient) :
    (extract_post_data_with_retries fetch rng ts url rc).attempts.length
        = max_retries_per_url ∧
    (extract_post_data_with_retries fetch rng ts url rc).status
        = "ALL_RETRIES_FAILED".data ∧
    (extract_post_data_with_retries fetch rng ts url rc).retryCount
        = rc + max_retries_per_url := by
  obtain ⟨sc, hsc⟩ := Option.isSome_iff_exists.mp hparse
  have hall := retryAux_fail_all fetch rng sc ts
    (fun a => ⟨FailureKind.transient, hfail sc a⟩) max_retries_per_url 0
  simp [extract_post_data_with_retries, hsc, hall, failTrace_length]

/-- Witness for C1 at a concrete URL and an always-`TRANSIENT` fetcher. -/
theorem C1_retry_ceiling_witness :
    (extract_post_data_with_retries (fun _ _ => FetchResult.err FailureKind.transient)
        (fun _ => 0) "ts".data "https://instagram.com/p/ABC123/".data 0).attempts.length
        = max_retries_per_url ∧
    (extract_post_data_with_retries (fun _ _ => FetchResult.err FailureKind.transient)
        (fun _ => 0) "ts".data "https://instagram.com/p/ABC123/".data 0).status
        = "ALL_RETRIES_FAILED".data ∧
    (extract_post_data_with_retries (fun _ _ => FetchResult.err FailureKind.transient)
        (fun _ => 0) "ts".data "https://instagram.com/p/ABC123/".data 0).retryCount
        = 0 + max_retries_per_url :=
  C1_retry_ceiling _ _ _ _ 0 (by decide) (fun _ _ => rfl)

/-- Claim C7, confirmed.  Within one job's fetch loop, the first performed
attempt always uses the session's default loader, and every attempt from the
second onward uses a freshly constructed loader bound to a rotated
(randomized user-agent) identity. -/
theorem C7_identity_rotation (fetch : Fetch) (rng : Nat → Fin 3)
    (ts url : List Char) (rc : Nat) :
    ((extract_post_data_with_retries fetch rng ts url rc).attempts ≠ [] →
      (extract_post_data_with_retries fetch rng ts url rc).attempts.head? =
        some Identity.defaultSession) ∧
    (∀ x ∈ (extract_post_data_with_retries fetch rng ts url rc).attempts.tail,
      ∃ u, x = Identity.rotated u) := by
  cases hsc : extract_shortcode url with
  | none => simp [extract_post_data_with_retries, hsc]
  | some sc =>
    constructor
    · intro _hne
      have hpos : 0 < max_retries_per_url := by decide
      have hh := retryAux_head_ident fetch rng sc ts max_retries_per_url 0 hpos
      simp only [if_pos rfl] at hh
      by_cases hs : (retryAux fetch rng sc ts 0 max_retries_per_url).2.1
      · simpa [extract_post_data_with_retries, hsc, hs] using hh
      · simpa [extract_post_data_with_retries, hsc, hs] using hh
    · intro x hx
      have hx2 : x ∈ (retryAux fetch rng sc ts 0 max_retries_per_url).2.2.tail := by
        by_cases hs : (retryAux fetch rng sc ts 0 max_retries_per_url).2.1
        · simpa [extract_post_data_with_retries, hsc, hs] using hx
        · simpa [extract_post_data_with_retries, hsc, hs] using hx
      exact retryAux_drop_one_rotated fetch rng sc ts max_retries_per_url x hx2

/-- Witness for C7: one concrete run whose first attempt is the default
identity and whose other attempts are all rotated. -/
theorem C7_identity_rotation_witness :
    (extract_post_data_with_retries (fun _ _ => FetchResult.err FailureKind.transient)
        (fun _ => 1) "ts".data "https://instagram.com/p/ABC123/".data 0).attempts.head? =
      some Identity.defaultSession ∧
    (∀ x ∈ (extract_post_data_with_retries
        (fun _ _ => FetchResult.err FailureKind.transient)
        (fun _ => 1) "ts".data "https://instagram.com/p/ABC123/".data 0).attempts.tail,
      ∃ u, x = Identity.rotated u) := by
  have h := C7_identity_rotation (fun _ _ => FetchResult.err FailureKind.transient)
    (fun _ => 1) "ts".data "https://instagram.com/p/ABC123/".data 0
  exact ⟨h.1 (by decide), h.2⟩

/-- Counterexample to claim C2 as stated.  The persistent retry loop
(`_extract_post_data_with_retries`) has no terminal-failure short-circuit:
its generic `except Exception` branch ends in `continue`, so a fetcher that
fails with `NOT_FOUND` from the first attempt on is retried for all five
attempts and the job ends in `"ALL_RETRIES_FAILED"` — not after exactly one
attempt and not in a `FAILED_UNAVAILABLE` status. -/
theorem C2_counterexample :
    (extract_post_data_with_retries (fun _ _ => FetchResult.err FailureKind.notFound)
        (fun _ => 0) "ts".data "https://instagram.com/p/ABC123/".data 0).attempts.length
      = 5 ∧
    (extract_post_data_with_retries (fun _ _ => FetchResult.err FailureKind.notFound)
        (fun _ => 0) "ts".data "https://instagram.com/p/ABC123/".data 0).status
      = "ALL_RETRIES_FAILED".data := by
  decide

/-- Claim C2, amended.  In the persistent retry loop, `NOT_FOUND` (and
`ACCESS_DENIED`) failures are retried like transient ones and a persistent
such failure consumes the whole five-attempt budget, ending in
`"ALL_RETRIES_FAILED"`.  Only the professional single-attempt extractor
realises the claimed behaviour: a `NOT_FOUND` fetch result gives exactly one
fetch attempt, no retries, and the terminal status `"POST_UNAVAILABLE"`
(the code's realisation of `FAILED_UNAVAILABLE`). -/
theorem C2_amended :
    (∀ (fetch : Fetch) (rng : Nat → Fin 3) (ts url : List Char) (rc : Nat),
      (extract_shortcode url).isSome = true →
      (∀ sc a, fetch sc a = FetchResult.err FailureKind.notFound) →
      (extract_post_data_with_retries fetch rng ts url rc).attempts.length
          = max_retries_per_url ∧
      (extract_post_data_with_retries fetch rng ts url rc).status
          = "ALL_RETRIES_FAILED".data) ∧
    (∀ (fetch : List Char → ProFetchResult) (ts url : List Char),
      (extract_shortcode_professional url).isSome = true →
      (∀ sc, fetch sc = ProFetchResult.postUnavailable) →
      (extract_post_data_professional fetch ts url).fetchCount = 1 ∧
      (extract_post_data_professional fetch ts url).status = "POST_UNAVAILABLE".data ∧
      (extract_post_data_professional fetch ts url).data = none) := by
  constructor
  · intro fetch rng ts url rc hparse hfail
    obtain ⟨sc, hsc⟩ := Option.isSome_iff_exists.mp hparse
    have hall := retryAux_fail_all fetch rng sc ts
      (fun a => ⟨FailureKind.notFound, hfail sc a⟩) max_retries_per_url 0
    simp [extract_post_data_with_retries, hsc, hall, failTrace_length]
  · intro fetch ts url hparse hf
    obtain ⟨sc, hsc⟩ := Option.isSome_iff_exists.mp hparse
    simp [extract_post_data_professional, hsc, hf sc]

/-- Witness for the amended C2 at concrete inputs. -/
theorem C2_amended_witness :
    ((extract_post_data_with_retries (fun _ _ => FetchResult.err FailureKind.notFound)
        (fun _ => 0) "ts".data "https://instagram.com/p/ABC123/".data 0).attempts.length
          = max_retries_per_url ∧
      (extract_post_data_with_retries (fun _ _ => FetchResult.err FailureKind.notFound)
        (fun _ => 0) "ts".data "https://instagram.com/p/ABC123/".data 0).status
          = "ALL_RETRIES_FAILED".data) ∧
    ((extract_post_data_professional (fun _ => ProFetchResult.postUnavailable)
        "ts".data "https://instagram.com/reel/XYZ/".data).fetchCount = 1 ∧
      (extract_post_data_professional (fun _ => ProFetchResult.postUnavailable)
        "ts".data "https://instagram.com/reel/XYZ/".data).status
          = "POST_UNAVAILABLE".data ∧
      (extract_post_data_professional (fun _ => ProFetchResult.postUnavailable)
        "ts".data "https://instagram.com/reel/XYZ/".data).data = none) :=
  ⟨C2_amended.1 _ _ _ _ 0 (by decide) (fun _ _ => rfl),
   C2_amended.2 _ _ _ (by decide) (fun _ => rfl)⟩

/-- Claim C6, confirmed.  A job whose raw reference fails to parse gets the
terminal classification `"INVALID_URL"` (the code's realisation of
`FAILED_INVALID`, written back as a failed row), with zero fetch attempts
and the cumulative attempt count returned unchanged; and the engine's job
loop continues with the next job — the trace of `processJobs` covers every
collected job, invalid ones included. -/
theorem C6_invalid_input (fetch : Fetch) (rng : Nat → Fin 3)
    (ts : List Char) (rc : Nat) :
    (∀ url, extract_shortcode url = none →
      extract_post_data_with_retries fetch rng ts url rc =
        ⟨none, "INVALID_URL".data, rc, []⟩) ∧
    (∀ url, isSuccessRow (update_sheet_row url none "INVALID_URL".data rc ts) = false) ∧
    (∀ jobs st, (processJobs fetch rng ts jobs st).2.2 =
      jobs.map (fun j => (j.1, (extract_post_data_with_retries fetch rng ts j.2 0).status))) := by
  refine ⟨?_, ?_, ?_⟩
  · intro url h
    simp [extract_post_data_with_retries, h]
  · intro url
    simp [update_sheet_row, isSuccessRow]
    decide
  · intro jobs
    induction jobs with
    | nil => intro st; simp [processJobs]
    | cons j rest ih =>
      intro st
      obtain ⟨r, u⟩ := j
      simp [processJobs, ih]

/-- Witness for C6 at a concrete unparsable reference. -/
theorem C6_invalid_input_witness :
    extract_post_data_with_retries (fun _ _ => FetchResult.err FailureKind.transient)
        (fun _ => 0) "ts".data "https://instagram.com/stories/zz".data 7 =
      ⟨none, "INVALID_URL".data, 7, []⟩ :=
  (C6_invalid_input (fun _ _ => FetchResult.err FailureKind.transient)
      (fun _ => 0) "ts".data 7).1 _ (by decide)

/-! ## Lemmas about the sheet writes -/

lemma getD_set_self {α : Type} (st : List α) (i : Nat) (row d : α)
    (h : i < st.length) : (st.set i row).getD i d = row := by
  simp [List.getD, h]

lemma getD_set_ne {α : Type} (st : List α) (i j : Nat) (row d : α)
    (h : i ≠ j) : (st.set i row).getD j d = st.getD j d := by
  simp [List.getD, List.getElem?_set_ne h]

lemma isSuccessRow_fail_shape (url msg ts rcs : List Char) :
    isSuccessRow [url, [], [], [], [], [], [], [], [], [], [], [], msg, ts, rcs]
      = false := rfl

lemma isSuccessRow_success_shape (c0 c1 c2 c3 c4 c5 c6 c7 c8 c9 c10 c12 c13 : List Char) :
    isSuccessRow [c0, c1, c2, c3, c4, c5, c6, c7, c8, c9, c10,
      "✅ SUCCESS".data, c12, c13] = true := rfl

/-- Claim C3, confirmed.  Every row produced by `_update_sheet_row`
preserves `status = SUCCESS ⟺ attributes populated`: the Processing Status
cell contains `✅ SUCCESS` exactly when the write was a success write with
data, in which case every attribute cell is filled from the fetched data
(the account cell in particular is nonempty); any other write leaves every
attribute cell (columns B through L, indices 1–11) empty.  Because the
engine replaces the whole row, re-processing a previously successful row
with a failing outcome leaves no stale attributes behind. -/
theorem C3_success_iff_attributes (url : List Char) (data : Option PostData)
    (status : List Char) (rc : Nat) (ts : List Char) :
    (isSuccessRow (update_sheet_row url data status rc ts) = true ↔
      (data.isSome = true ∧ status = "SUCCESS".data)) ∧
    (∀ d, data = some d → status = "SUCCESS".data →
      update_sheet_row url data status rc ts =
        [url, '@' :: d.account, fmtGrouped d.likes, fmtGrouped d.comments,
         fmtGrouped d.views, d.type, d.posted_date, d.caption,
         (toString d.hashtags).data, d.location, d.last_fetched,
         "✅ SUCCESS".data, ts, (toString rc).data]) ∧
    (isSuccessRow (update_sheet_row url data status rc ts) = true ↔
      List.getD (update_sheet_row url data status rc ts) 1 [] ≠ []) ∧
    (¬(data.isSome = true ∧ status = "SUCCESS".data) →
      ∀ j, 1 ≤ j → j ≤ 11 →
        List.getD (update_sheet_row url data status rc ts) j [] = []) ∧
    (∀ (st : Store) (r : Nat), r - 1 < st.length →
      ¬(data.isSome = true ∧ status = "SUCCESS".data) →
      ∀ j, 1 ≤ j → j ≤ 11 →
        List.getD
          (List.getD (writeRow st r (update_sheet_row url data status rc ts)) (r - 1) [])
          j [] = []) := by
  have hempty : ¬(data.isSome = true ∧ status = "SUCCESS".data) →
      ∀ j, 1 ≤ j → j ≤ 11 →
        List.getD (update_sheet_row url data status rc ts) j [] = [] := by
    intro hno j h1 h11
    match data with
    | none =>
      simp only [update_sheet_row]
      interval_cases j <;> rfl
    | some d =>
      have hst : ¬ status = "SUCCESS".data := by
        intro h; exact hno ⟨rfl, h⟩
      simp only [update_sheet_row, if_neg hst]
      interval_cases j <;> rfl
  refine ⟨?_, ?_, ?_, hempty, ?_⟩
  · match data with
    | none =>
      rw [update_sheet_row, isSuccessRow_fail_shape]
      constructor
      · intro h; exact absurd h (by decide)
      · rintro ⟨h, -⟩; simp at h
    | some d =>
      by_cases hst : status = "SUCCESS".data
      · rw [update_sheet_row, if_pos hst, isSuccessRow_success_shape]
        exact ⟨fun _ => ⟨rfl, hst⟩, fun _ => rfl⟩
      · rw [update_sheet_row, if_neg hst, isSuccessRow_fail_shape]
        constructor
        · intro h; exact absurd h (by decide)
        · rintro ⟨-, h⟩; exact absurd h hst
  · intro d hd hst
    subst hd
    simp [update_sheet_row, hst]
  · match data with
    | none =>
      rw [update_sheet_row, isSuccessRow_fail_shape]
      constructor
      · intro h; exact absurd h (by decide)
      · intro h; exact absurd rfl h
    | some d =>
      by_cases hst : status = "SUCCESS".data
      · rw [update_sheet_row, if_pos hst, isSuccessRow_success_shape]
        refine ⟨fun _ => ?_, fun _ => rfl⟩
        show '@' :: d.account ≠ []
        simp
      · rw [update_sheet_row, if_neg hst, isSuccessRow_fail_shape]
        constructor
        · intro h; exact absurd h (by decide)
        · intro h; exact absurd rfl h
  · intro st r hr hno j h1 h11
    rw [writeRow, getD_set_self st (r - 1) _ _ hr]
    exact hempty hno j h1 h11

/-- Witness for C3 at a concrete failed write over a previously successful
row. -/
theorem C3_success_iff_attributes_witness :
    (isSuccessRow (update_sheet_row "u".data none "ALL_RETRIES_FAILED".data 5 "ts".data)
      = true ↔ ((none : Option PostData).isSome = true ∧
        "ALL_RETRIES_FAILED".data = "SUCCESS".data)) ∧
    List.getD
      (List.getD
        (writeRow [["h".data], ["u".data, "@old".data]] 2
          (update_sheet_row "u".data none "ALL_RETRIES_FAILED".data 5 "ts".data)) 1 [])
      1 [] = [] := by
  have h := C3_success_iff_attributes "u".data none "ALL_RETRIES_FAILED".data 5 "ts".data
  refine ⟨h.1, ?_⟩
  exact h.2.2.2.2 [["h".data], ["u".data, "@old".data]] 2 (by decide)
    (by intro hc; exact absurd hc.1 (by decide)) 1 (by decide) (by decide)

/-! ## Lemmas about caption whitespace normalisation -/

/-- Canonical single-spaced form: no leading or trailing space, every
whitespace character is a single `' '` between two non-whitespace
characters.  The flag records whether a space may occur here (i.e. the
previous character was not a space). -/
def singleSpacedAux : Bool → List Char → Bool
  | _, [] => true
  | allowSp, c :: cs =>
    if c = ' ' then allowSp && !cs.isEmpty && singleSpacedAux false cs
    else !isWs c && singleSpacedAux true cs

def singleSpaced (s : List Char) : Bool := singleSpacedAux false s

lemma splitWsAux_tokens_wf :
    ∀ (s acc : List Char), (∀ c ∈ acc, isWs c = false) →
      ∀ t ∈ splitWsAux s acc, t ≠ [] ∧ ∀ c ∈ t, isWs c = false := by
  intro s
  induction s with
  | nil =>
    intro acc hacc t ht
    by_cases h : acc.isEmpty
    · simp [splitWsAux, h] at ht
    · simp [splitWsAux, h] at ht
      subst ht
      refine ⟨by simpa using h, ?_⟩
      intro c hc
      exact hacc c (by simpa using hc)
  | cons c cs ih =>
    intro acc hacc t ht
    by_cases hw : isWs c
    · by_cases h : acc.isEmpty
      · simp [splitWsAux, hw, h] at ht
        exact ih [] (by simp) t ht
      · simp [splitWsAux, hw, h] at ht
        rcases ht with ht | ht
        · subst ht
          refine ⟨by simpa using h, ?_⟩
          intro x hx
          exact hacc x (by simpa using hx)
        · exact ih [] (by simp) t ht
    · simp [splitWsAux, hw] at ht
      refine ih (c :: acc) ?_ t ht
      intro x hx
      rcases List.mem_cons.mp hx with hx | hx
      · subst hx; simpa using hw
      · exact hacc x hx

lemma splitWsAux_word (w : List Char) (hw : ∀ c ∈ w, isWs c = false) :
    ∀ (s acc : List Char), splitWsAux (w ++ s) acc = splitWsAux s (w.reverse ++ acc) := by
  induction w with
  | nil => intro s acc; simp
  | cons c w2 ih =>
    intro s acc
    have hc : isWs c = false := hw c (by simp)
    have hw2 : ∀ x ∈ w2, isWs x = false := fun x hx => hw x (by simp [hx])
    simp only [List.cons_append, splitWsAux, hc, Bool.false_eq_true, if_false]
    rw [show w2.append s = w2 ++ s from rfl, ih hw2 s (c :: acc)]
    simp

lemma joinSpace_ne_nil (w : List Char) (ws : List (List Char)) (hw : w ≠ []) :
    joinSpace (w :: ws) ≠ [] := by
  cases ws with
  | nil => simpa [joinSpace] using hw
  | cons w2 ws2 =>
    simp only [joinSpace]
    intro h
    rcases List.append_eq_nil.mp h with ⟨h1, -⟩
    exact hw h1

lemma pysplit_joinSpace :
    ∀ ws : List (List Char),
      (∀ t ∈ ws, t ≠ [] ∧ ∀ c ∈ t, isWs c = false) →
      pysplit (joinSpace ws) = ws := by
  intro ws
  induction ws with
  | nil => intro _; rfl
  | cons w rest ih =>
    intro hwf
    obtain ⟨hne, hnw⟩ := hwf w (by simp)
    cases rest with
    | nil =>
      show splitWsAux (joinSpace [w]) [] = [w]
      have hj : joinSpace [w] = w ++ [] := by simp [joinSpace]
      rw [hj, splitWsAux_word w hnw [] []]
      have hni : w.reverse.isEmpty = false := by simpa using hne
      simp [splitWsAux, hni]
    | cons w2 rest2 =>
      show splitWsAux (w ++ ' ' :: joinSpace (w2 :: rest2)) [] = w :: w2 :: rest2
      rw [splitWsAux_word w hnw (' ' :: joinSpace (w2 :: rest2)) []]
      have hni : (w.reverse ++ ([] : List Char)).isEmpty = false := by simpa using hne
      have hws : isWs ' ' = true := by decide
      simp only [splitWsAux, hws, if_true, hni, Bool.false_eq_true, if_false]
      rw [show (w.reverse ++ ([] : List Char)).reverse = w by simp]
      exact congrArg (fun l => w :: l) (ih (fun t ht => hwf t (by simp [ht])))

lemma singleSpacedAux_word (w : List Char) (hw : ∀ c ∈ w, isWs c = false)
    (hne : w ≠ []) :
    ∀ (b : Bool) (r : List Char),
      singleSpacedAux b (w ++ r) = singleSpacedAux true r := by
  induction w with
  | nil => exact absurd rfl hne
  | cons c w2 ih =>
    intro b r
    have hc : isWs c = false := hw c (by simp)
    have hcs : ¬ c = ' ' := by
      intro h; subst h; simp [isWs] at hc
    cases w2 with
    | nil => simp [singleSpacedAux, hcs, hc]
    | cons d w3 =>
      have hw2 : ∀ x ∈ d :: w3, isWs x = false := fun x hx => hw x (by simp [hx])
      simp only [List.cons_append, singleSpacedAux, hcs, if_false, hc,
        Bool.not_false, Bool.true_and]
      exact ih hw2 (List.cons_ne_nil d w3) true r

lemma singleSpaced_joinSpace :
    ∀ ws : List (List Char),
      (∀ t ∈ ws, t ≠ [] ∧ ∀ c ∈ t, isWs c = false) →
      singleSpaced (joinSpace ws) = true := by
  intro ws
  induction ws with
  | nil => intro _; rfl
  | cons w rest ih =>
    intro hwf
    obtain ⟨hne, hnw⟩ := hwf w (by simp)
    cases rest with
    | nil =>
      show singleSpacedAux false (joinSpace [w]) = true
      have hj : joinSpace [w] = w ++ [] := by simp [joinSpace]
      rw [hj, singleSpacedAux_word w hnw hne false []]
      rfl
    | cons w2 rest2 =>
      show singleSpacedAux false (w ++ ' ' :: joinSpace (w2 :: rest2)) = true
      rw [singleSpacedAux_word w hnw hne false (' ' :: joinSpace (w2 :: rest2))]
      obtain ⟨hne2, -⟩ := hwf w2 (by simp)
      have hjn : (joinSpace (w2 :: rest2)).isEmpty = false := by
        simpa using joinSpace_ne_nil w2 rest2 hne2
      simp only [singleSpacedAux, if_true, Bool.true_and, hjn, Bool.not_false]
      exact ih (fun t ht => hwf t (by simp [ht]))

lemma collapseWs_tokens (s : List Char) : pysplit (collapseWs s) = pysplit s := by
  unfold collapseWs
  exact pysplit_joinSpace (pysplit s)
    (splitWsAux_tokens_wf s [] (by simp))

lemma collapseWs_singleSpaced (s : List Char) : singleSpaced (collapseWs s) = true := by
  unfold collapseWs
  exact singleSpaced_joinSpace (pysplit s)
    (splitWsAux_tokens_wf s [] (by simp))

/-- Counterexample to claim C8 as stated.  The source normalises captions
with `' '.join(caption.split())`, which removes a leading (or trailing)
whitespace run outright instead of collapsing it into a single space: on the
caption `" hello   world"` a literal run-to-single-space collapse (the
reference function `specCollapse`, modelled from the spec sentence) yields
`" hello world"`, while `_clean_caption` yields `"hello world"`. -/
theorem C8_counterexample :
    specCollapse " hello   world".data = " hello world".data ∧
    clean_caption (some " hello   world".data) = "hello world".data ∧
    clean_caption (some " hello   world".data) ≠ specCollapse " hello   world".data := by
  decide

/-- Claim C8, amended.  `_clean_caption` collapses every interior run of
whitespace to a single space and removes leading and trailing whitespace:
the normalised text has exactly the caption's whitespace-delimited tokens,
separated by single spaces, with no boundary whitespace (`singleSpaced`).
If the collapsed text exceeds the 150-character cap the result is its first
150 characters followed by `"..."`; an empty or absent caption yields the
sentinel `"No caption"`; and `"hello   world"` normalises to
`"hello world"`. -/
theorem C8_caption_normalisation :
    clean_caption none = "No caption".data ∧
    clean_caption (some []) = "No caption".data ∧
    (∀ s : List Char, s ≠ [] → (collapseWs s).length ≤ 150 →
      clean_caption (some s) = collapseWs s) ∧
    (∀ s : List Char, s ≠ [] → (collapseWs s).length > 150 →
      clean_caption (some s) = (collapseWs s).take 150 ++ "...".data) ∧
    (∀ s : List Char, pysplit (collapseWs s) = pysplit s ∧
      singleSpaced (collapseWs s) = true) ∧
    clean_caption (some "hello   world".data) = "hello world".data := by
  refine ⟨rfl, rfl, ?_, ?_, ?_, by decide⟩
  · intro s hs hlen
    have hne : s.isEmpty = false := by simpa using hs
    simp [clean_caption, hne, Nat.not_lt.mpr hlen]
  · intro s hs hlen
    have hne : s.isEmpty = false := by simpa using hs
    simp [clean_caption, hne, hlen]
  · intro s
    exact ⟨collapseWs_tokens s, collapseWs_singleSpaced s⟩

/-- Witness for the amended C8 at concrete captions. -/
theorem C8_caption_normalisation_witness :
    clean_caption (some " hi\t there ".data) = collapseWs " hi\t there ".data ∧
    pysplit (collapseWs " hi\t there ".data) = pysplit " hi\t there ".data ∧
    singleSpaced (collapseWs " hi\t there ".data) = true := by
  have h := C8_caption_normalisation
  exact ⟨h.2.2.1 " hi\t there ".data (by decide) (by decide),
    (h.2.2.2.2.1 " hi\t there ".data).1, (h.2.2.2.2.1 " hi\t there ".data).2⟩

/-- Counterexample to claim C9 as stated.  A full-table read failure is not
fatal and is not surfaced: in `process_urls_persistently` the whole batch
body sits in a catch-all `try`/`except` whose handler waits and `continue`s,
so with a store whose read always fails the engine silently re-attempts the
read on each of its three batch attempts (an internal retry of the read) and
then returns the count `0` normally to the caller instead of propagating the
failure. -/
theorem C9_counterexample :
    process_urls_persistently_reads (fun _ => none)
      (fun _ _ => FetchResult.err FailureKind.transient) (fun _ => 0) "ts".data
      = (0, 3) := rfl

/-- Claim C9, amended.  A failure of the store's full-table read is caught
by the engine, never propagated: the persistent engine retries the read on
each subsequent batch attempt (`max_total_attempts = 3` reads in all when
every read fails) and then returns `0` normally; the professional engine
catches the failure after its single read and returns `0`.  In neither case
is the failure surfaced to the caller. -/
theorem C9_read_failure_swallowed :
    (∀ (fetch : Fetch) (rng : Nat → Fin 3) (ts : List Char),
      process_urls_persistently_reads (fun _ => none) fetch rng ts
        = (0, max_total_attempts)) ∧
    (∀ (fetch : List Char → ProFetchResult) (ts : List Char),
      process_all_urls_professional_reads none fetch ts = (0, 1)) :=
  ⟨fun _ _ _ => rfl, fun _ _ => rfl⟩

/-! ## Lemmas about the shortcode parser -/

lemma shortcode_not_ws (c : Char) (h : isShortcodeChar c = true) : isWs c = false := by
  cases hw : isWs c
  · rfl
  · exfalso
    have hw2 := hw
    simp only [isWs, Bool.or_eq_true, decide_eq_true_eq] at hw2
    rcases hw2 with ((((h1 | h1) | h1) | h1) | h1) | h1 <;>
      (subst h1; exact absurd h (by decide))

lemma isPrefixOf_mem {tag l : List Char} (h : tag.isPrefixOf l = true)
    {x : Char} (hx : x ∈ tag) : x ∈ l :=
  (List.isPrefixOf_iff_prefix.mp h).mem hx

lemma searchPat_none_of_no_slash (tag : List Char) (hmem : '/' ∈ tag) :
    ∀ l : List Char, '/' ∉ l → searchPat tag l = none := by
  intro l
  induction l with
  | nil => intro _; rfl
  | cons c cs ih =>
    intro hl
    have hp : tag.isPrefixOf (c :: cs) = false := by
      cases hpb : tag.isPrefixOf (c :: cs)
      · rfl
      · exact absurd (isPrefixOf_mem hpb hmem) hl
    simp only [searchPat, hp, Bool.false_eq_true, if_false]
    exact ih (fun hx => hl (List.mem_cons_of_mem c hx))

lemma prefix_append_no_slash {t0 suf l : List Char} (hsuf : ('/' : Char) ∉ suf)
    (h : (t0 ++ ['/']) <+: (l ++ suf)) : (t0 ++ ['/']) <+: l := by
  by_cases hlen : (t0 ++ ['/']).length ≤ l.length
  · exact List.prefix_of_prefix_length_le h (List.prefix_append l suf) hlen
  · exfalso
    have hl : l <+: t0 ++ ['/'] :=
      List.prefix_of_prefix_length_le (List.prefix_append l suf) h (by omega)
    obtain ⟨t1, ht1⟩ := hl
    have ht1ne : t1 ≠ [] := by
      intro h0
      subst h0
      rw [List.append_nil] at ht1
      subst ht1
      omega
    rw [← ht1] at h
    have ht1suf : t1 <+: suf := (List.prefix_append_right_inj l).mp h
    have hlast : ('/' : Char) ∈ t1 := by
      have h1 : (l ++ t1).getLast? = some '/' := by
        rw [ht1, List.getLast?_append]
        rfl
      rw [List.getLast?_append] at h1
      cases hgl : t1.getLast? with
      | none => exact absurd (List.getLast?_eq_none_iff.mp hgl) ht1ne
      | some x =>
        rw [hgl] at h1
        simp only [Option.or_some, Option.some.injEq] at h1
        subst h1
        exact List.mem_of_getLast?_eq_some hgl
    exact hsuf (ht1suf.mem hlast)

lemma isPrefixOf_append_no_slash (t0 suf l : List Char)
    (hsuf : ('/' : Char) ∉ suf) :
    (t0 ++ ['/']).isPrefixOf (l ++ suf) = (t0 ++ ['/']).isPrefixOf l := by
  cases hb : (t0 ++ ['/']).isPrefixOf l
  · cases hb2 : (t0 ++ ['/']).isPrefixOf (l ++ suf)
    · rfl
    · exfalso
      have hpre := prefix_append_no_slash hsuf (List.isPrefixOf_iff_prefix.mp hb2)
      have := List.isPrefixOf_iff_prefix.mpr hpre
      rw [hb] at this
      exact Bool.false_ne_true this
  · have h1 : (t0 ++ ['/']) <+: l ++ suf :=
      (List.isPrefixOf_iff_prefix.mp hb).trans (List.prefix_append l suf)
    rw [List.isPrefixOf_iff_prefix.mpr h1]

lemma takeWhile_append_nonclass (suf : List Char)
    (hhead : ∀ c, suf.head? = some c → isShortcodeChar c = false) :
    ∀ a : List Char,
      (a ++ suf).takeWhile isShortcodeChar = a.takeWhile isShortcodeChar := by
  intro a
  induction a with
  | nil =>
    simp only [List.nil_append, List.takeWhile_nil]
    cases suf with
    | nil => rfl
    | cons c cs => simp [List.takeWhile_cons, hhead c rfl]
  | cons x a2 ih =>
    simp only [List.cons_append, List.takeWhile_cons]
    cases hx : isShortcodeChar x <;> simp [ih]

lemma searchPat_append (t0 suf : List Char) (hsuf : ('/' : Char) ∉ suf)
    (hhead : ∀ c, suf.head? = some c → isShortcodeChar c = false) :
    ∀ l : List Char,
      searchPat (t0 ++ ['/']) (l ++ suf) = searchPat (t0 ++ ['/']) l := by
  intro l
  induction l with
  | nil =>
    rw [List.nil_append,
      searchPat_none_of_no_slash (t0 ++ ['/']) (by simp) suf hsuf]
    rfl
  | cons c cs ih =>
    cases hp : (t0 ++ ['/']).isPrefixOf (c :: cs) with
    | false =>
      have hp2 : (t0 ++ ['/']).isPrefixOf ((c :: cs) ++ suf) = false := by
        rw [isPrefixOf_append_no_slash t0 suf (c :: cs) hsuf, hp]
      rw [show (c :: cs) ++ suf = c :: (cs ++ suf) from rfl] at hp2
      simpa [searchPat, hp, hp2] using ih
    | true =>
      have hp2 : (t0 ++ ['/']).isPrefixOf ((c :: cs) ++ suf) = true := by
        rw [isPrefixOf_append_no_slash t0 suf (c :: cs) hsuf, hp]
      rw [show (c :: cs) ++ suf = c :: (cs ++ suf) from rfl] at hp2
      obtain ⟨t, ht⟩ := List.isPrefixOf_iff_prefix.mp hp
      have hdrop1 : (c :: cs).drop (t0 ++ ['/']).length = t := by
        rw [← ht]
        exact List.drop_left _ _
      have hdrop2 : (c :: (cs ++ suf)).drop (t0 ++ ['/']).length = t ++ suf := by
        rw [show c :: (cs ++ suf) = (c :: cs) ++ suf from rfl, ← ht,
          List.append_assoc]
        exact List.drop_left _ _
      have hd1 : List.drop t0.length cs = t := by
        have h0 := hdrop1
        simpa using h0
      have hd2 : List.drop t0.length (cs ++ suf) = t ++ suf := by
        have h0 := hdrop2
        simpa using h0
      cases hcap : t.takeWhile isShortcodeChar with
      | nil =>
        simpa [searchPat, hp, hp2, hd1, hd2,
          takeWhile_append_nonclass suf hhead t, hcap] using ih
      | cons d r =>
        simp [searchPat, hp, hp2, hd1, hd2,
          takeWhile_append_nonclass suf hhead t, hcap]

/-- A structural path-shape occurrence: the string contains the literal tag
immediately followed by at least one shortcode character. -/
def hasShape (tag s : List Char) : Prop :=
  ∃ pre c rest, s = pre ++ tag ++ c :: rest ∧ isShortcodeChar c = true

/-- The reference contains a content (`/p/<id>`), reel (`/reel/<id>`) or tv
(`/tv/<id>`) path shape. -/
def containsShape (s : List Char) : Prop :=
  hasShape pTag s ∨ hasShape reelTag s ∨ hasShape tvTag s

lemma shape_of_searchPat (tag : List Char) :
    ∀ s r, searchPat tag s = some r → hasShape tag s := by
  intro s
  induction s with
  | nil => intro r h; simp [searchPat] at h
  | cons c cs ih =>
    intro r h
    cases hp : tag.isPrefixOf (c :: cs) with
    | false =>
      have h2 : searchPat tag cs = some r := by
        simpa [searchPat, hp] using h
      obtain ⟨pre, d, rest, hs, hd⟩ := ih r h2
      exact ⟨c :: pre, d, rest, by simp [hs], hd⟩
    | true =>
      obtain ⟨t, ht⟩ := List.isPrefixOf_iff_prefix.mp hp
      have hdrop : (c :: cs).drop tag.length = t := by
        rw [← ht]
        exact List.drop_left _ _
      cases hcap : t.takeWhile isShortcodeChar with
      | nil =>
        have h2 : searchPat tag cs = some r := by
          simpa [searchPat, hp, hdrop, hcap] using h
        obtain ⟨pre, d, rest, hs, hd⟩ := ih r h2
        exact ⟨c :: pre, d, rest, by simp [hs], hd⟩
      | cons d r2 =>
        cases t with
        | nil => simp [List.takeWhile_nil] at hcap
        | cons x t2 =>
          cases hx : isShortcodeChar x with
          | false =>
            rw [List.takeWhile_cons, hx] at hcap
            simp at hcap
          | true =>
            exact ⟨[], x, t2, by simp [← ht], hx⟩

lemma searchPat_isSome_of_shape (tag : List Char) (htagne : tag ≠ []) :
    ∀ (pre : List Char) (c : Char) (rest : List Char), isShortcodeChar c = true →
      (searchPat tag (pre ++ tag ++ c :: rest)).isSome = true := by
  intro pre
  induction pre with
  | nil =>
    intro c rest hc
    have hp : tag.isPrefixOf (tag ++ c :: rest) = true :=
      List.isPrefixOf_iff_prefix.mpr (List.prefix_append _ _)
    have hdrop : (tag ++ c :: rest).drop tag.length = c :: rest :=
      List.drop_left _ _
    cases htg : tag with
    | nil => exact absurd htg htagne
    | cons tc tcs =>
      subst htg
      rw [List.nil_append]
      simp [searchPat, List.isPrefixOf_iff_prefix.mp hp, hdrop,
        List.takeWhile_cons, hc]
  | cons p pre2 ih =>
    intro c rest hc
    rw [show ((p :: pre2) ++ tag ++ c :: rest) = p :: (pre2 ++ tag ++ c :: rest)
      from by simp]
    cases hp : tag.isPrefixOf (p :: (pre2 ++ tag ++ c :: rest)) with
    | false =>
      simp only [searchPat, hp, Bool.false_eq_true, if_false]
      exact ih c rest hc
    | true =>
      simp only [searchPat, hp]
      rw [if_pos trivial]
      cases hcap : ((p :: (pre2 ++ tag ++ c :: rest)).drop tag.length).takeWhile
          isShortcodeChar with
      | nil => exact ih c rest hc
      | cons d r2 => rfl

lemma pystrip_sub (s : List Char) : pystrip s <:+: s := by
  have h1 : s.dropWhile isWs <:+ s := List.dropWhile_suffix isWs
  have h2 : (s.dropWhile isWs).reverse.dropWhile isWs <:+ (s.dropWhile isWs).reverse :=
    List.dropWhile_suffix isWs
  have h3 := List.reverse_prefix.mpr h2
  rw [List.reverse_reverse] at h3
  exact List.IsInfix.trans h3.isInfix (List.IsSuffix.isInfix h1)

lemma hasShape_of_sub {tag s1 s2 : List Char} (h : s1 <:+: s2) :
    hasShape tag s1 → hasShape tag s2 := by
  rintro ⟨pre, c, rest, hs, hc⟩
  obtain ⟨l, r, hlr⟩ := h
  refine ⟨l ++ pre, c, rest ++ r, ?_, hc⟩
  rw [← hlr, hs]
  simp

lemma dropWhile_append_head_false (p : Char → Bool) (a suf : List Char)
    (hh : ∀ c, suf.head? = some c → p c = false) :
    (a ++ suf).dropWhile p = a.dropWhile p ++ suf := by
  rw [List.dropWhile_append]
  by_cases hw : (a.dropWhile p).isEmpty
  · rw [if_pos hw]
    have ha : a.dropWhile p = [] := by simpa using hw
    rw [ha, List.nil_append]
    cases suf with
    | nil => rfl
    | cons c cs => simp [List.dropWhile_cons, hh c rfl]
  · rw [if_neg hw]

lemma hasShape_pystrip (tag : List Char) (tc : Char) (tcs : List Char)
    (htag : tag = tc :: tcs) (htc : isWs tc = false) {s : List Char}
    (h : hasShape tag s) : hasShape tag (pystrip s) := by
  obtain ⟨pre, c, rest, hs, hc⟩ := h
  have hcw : isWs c = false := shortcode_not_ws c hc
  have step1 : ∃ pre1, s.dropWhile isWs = pre1 ++ tag ++ c :: rest := by
    rw [hs, List.append_assoc, List.dropWhile_append]
    by_cases hw : (pre.dropWhile isWs).isEmpty
    · rw [if_pos hw]
      refine ⟨[], ?_⟩
      rw [htag]
      simp [List.dropWhile_cons, htc]
    · rw [if_neg hw]
      exact ⟨pre.dropWhile isWs, by rw [List.append_assoc]⟩
  obtain ⟨pre1, h1⟩ := step1
  have hrev : (s.dropWhile isWs).reverse
      = rest.reverse ++ c :: (tag.reverse ++ pre1.reverse) := by
    rw [h1]
    simp [List.reverse_append]
  have step2 : ∃ rest2, (s.dropWhile isWs).reverse.dropWhile isWs
      = rest2 ++ c :: (tag.reverse ++ pre1.reverse) := by
    rw [hrev, List.dropWhile_append]
    by_cases hw : (rest.reverse.dropWhile isWs).isEmpty
    · rw [if_pos hw]
      exact ⟨[], by simp [List.dropWhile_cons, hcw]⟩
    · rw [if_neg hw]
      exact ⟨rest.reverse.dropWhile isWs, rfl⟩
  obtain ⟨rest2, h2⟩ := step2
  refine ⟨pre1, c, rest2.reverse, ?_, hc⟩
  show pystrip s = pre1 ++ tag ++ c :: rest2.reverse
  unfold pystrip
  rw [h2]
  simp [List.reverse_append]

lemma ws_not_shortcode (c : Char) (h : isWs c = true) : isShortcodeChar c = false := by
  cases hsc : isShortcodeChar c
  · rfl
  · rw [shortcode_not_ws c hsc] at h
    exact absurd h (by simp)

lemma pystrip_append (url suf : List Char) (hne : suf ≠ [])
    (hhead : ∀ c, suf.head? = some c → isWs c = false)
    (hlast : ∀ c, suf.reverse.head? = some c → isWs c = false) :
    ∃ mid, pystrip (url ++ suf) = pystrip url ++ (mid ++ suf) ∧
      ∀ c ∈ mid, isWs c = true := by
  have h1 : (url ++ suf).dropWhile isWs = url.dropWhile isWs ++ suf :=
    dropWhile_append_head_false isWs url suf hhead
  have h2 : (url.dropWhile isWs ++ suf).reverse.dropWhile isWs
      = suf.reverse ++ (url.dropWhile isWs).reverse := by
    rw [List.reverse_append]
    cases hsr : suf.reverse with
    | nil => exact absurd (by simpa using hsr) hne
    | cons c cs =>
      have hcw : isWs c = false := hlast c (by rw [hsr]; rfl)
      simp [List.dropWhile_cons, hcw]
  have h3 : pystrip (url ++ suf) = url.dropWhile isWs ++ suf := by
    unfold pystrip
    rw [h1, h2]
    simp
  refine ⟨((url.dropWhile isWs).reverse.takeWhile isWs).reverse, ?_, ?_⟩
  · rw [h3]
    have hsplit : (url.dropWhile isWs).reverse
        = (url.dropWhile isWs).reverse.takeWhile isWs
          ++ (url.dropWhile isWs).reverse.dropWhile isWs :=
      (List.takeWhile_append_dropWhile isWs _).symm
    have hd := congrArg List.reverse hsplit
    rw [List.reverse_reverse, List.reverse_append] at hd
    have hd2 : List.dropWhile isWs url
        = pystrip url ++ ((url.dropWhile isWs).reverse.takeWhile isWs).reverse := hd
    conv_lhs => rw [hd2]
    rw [List.append_assoc]
  · intro c hcmem
    have hmem2 : c ∈ (url.dropWhile isWs).reverse.takeWhile isWs := by
      simpa using hcmem
    exact List.mem_takeWhile_imp hmem2

lemma searchPat_strip_tracking (tag t0 : List Char) (htag : tag = t0 ++ ['/'])
    (url : List Char) :
    searchPat tag (pystrip (url ++ "?igsh=xyz".data))
      = searchPat tag (pystrip url) := by
  obtain ⟨mid, heq, hmid⟩ := pystrip_append url "?igsh=xyz".data (by decide)
    (by intro c h; simp at h; subst h; decide)
    (by intro c h; simp at h; subst h; decide)
  rw [heq, htag]
  refine searchPat_append t0 (mid ++ "?igsh=xyz".data) ?_ ?_ (pystrip url)
  · intro hmem
    rcases List.mem_append.mp hmem with hm | hm
    · exact absurd (hmid _ hm) (by decide)
    · exact absurd hm (by decide)
  · intro c hch
    cases mid with
    | nil =>
      have hc : c = '?' := by simpa using hch.symm
      subst hc
      decide
    | cons m ms =>
      have hcm : c = m := by simpa using hch.symm
      subst hcm
      exact ws_not_shortcode c (hmid c (by simp))

lemma searchPat_isSome_of_hasShape (tag : List Char) (htagne : tag ≠ [])
    {s : List Char} (h : hasShape tag s) : (searchPat tag s).isSome = true := by
  obtain ⟨pre, c, rest, hs, hc⟩ := h
  rw [hs]
  exact searchPat_isSome_of_shape tag htagne pre c rest hc

lemma extract_isSome_of_any (url : List Char)
    (h : (searchPat pTag (pystrip url)).isSome = true
       ∨ (searchPat reelTag (pystrip url)).isSome = true
       ∨ (searchPat tvTag (pystrip url)).isSome = true) :
    (extract_shortcode url).isSome = true := by
  cases hp : searchPat pTag (pystrip url) with
  | some r => simp [extract_shortcode, hp]
  | none =>
    cases hr : searchPat reelTag (pystrip url) with
    | some r => simp [extract_shortcode, hp, hr]
    | none =>
      cases htv : searchPat tvTag (pystrip url) with
      | some r => simp [extract_shortcode, hp, hr, htv]
      | none => rcases h with h | h | h <;> simp [hp, hr, htv] at h

lemma extract_some_cases (url r : List Char) (h : extract_shortcode url = some r) :
    searchPat pTag (pystrip url) = some r
    ∨ searchPat reelTag (pystrip url) = some r
    ∨ searchPat tvTag (pystrip url) = some r := by
  cases hp : searchPat pTag (pystrip url) with
  | some x =>
    have h2 : some x = some r := by
      rw [← h]
      simp [extract_shortcode, hp]
    exact Or.inl h2
  | none =>
    cases hr : searchPat reelTag (pystrip url) with
    | some x =>
      have h2 : some x = some r := by
        rw [← h]
        simp [extract_shortcode, hp, hr]
      exact Or.inr (Or.inl h2)
    | none =>
      have h2 : searchPat tvTag (pystrip url) = some r := by
        rw [← h]
        simp [extract_shortcode, hp, hr]
      exact Or.inr (Or.inr h2)

/-- Claim C5, confirmed.  `_extract_shortcode`: (1) the `/p/` pattern comes
first in the ordered pattern list, so when it matches, its capture is the
result; (2) every raw reference containing a content, reel or tv path shape
parses to a shortcode; (3) a reference containing none of the shapes parses
to `none`; (4) appending the tracking query suffix `?igsh=xyz` never changes
the parse result; and (5) the spec's concrete example
`https://example.com/p/ABC123/?igsh=xyz` parses to `ABC123`. -/
theorem C5_shortcode_extraction (url : List Char) :
    (∀ r, searchPat pTag (pystrip url) = some r → extract_shortcode url = some r) ∧
    (containsShape url → (extract_shortcode url).isSome = true) ∧
    (¬ containsShape url → extract_shortcode url = none) ∧
    (extract_shortcode (url ++ "?igsh=xyz".data) = extract_shortcode url) ∧
    extract_shortcode "https://example.com/p/ABC123/?igsh=xyz".data
      = some "ABC123".data := by
  refine ⟨?_, ?_, ?_, ?_, by decide⟩
  · intro r h
    simp [extract_shortcode, h]
  · intro hcs
    apply extract_isSome_of_any
    rcases hcs with h | h | h
    · exact Or.inl (searchPat_isSome_of_hasShape pTag (by decide)
        (hasShape_pystrip pTag '/' "p/".data (by decide) (by decide) h))
    · exact Or.inr (Or.inl (searchPat_isSome_of_hasShape reelTag (by decide)
        (hasShape_pystrip reelTag '/' "reel/".data (by decide) (by decide) h)))
    · exact Or.inr (Or.inr (searchPat_isSome_of_hasShape tvTag (by decide)
        (hasShape_pystrip tvTag '/' "tv/".data (by decide) (by decide) h)))
  · intro hnc
    cases hext : extract_shortcode url with
    | none => rfl
    | some r =>
      exfalso
      apply hnc
      rcases extract_some_cases url r hext with h | h | h
      · exact Or.inl (hasShape_of_sub (pystrip_sub url)
          (shape_of_searchPat pTag _ r h))
      · exact Or.inr (Or.inl (hasShape_of_sub (pystrip_sub url)
          (shape_of_searchPat reelTag _ r h)))
      · exact Or.inr (Or.inr (hasShape_of_sub (pystrip_sub url)
          (shape_of_searchPat tvTag _ r h)))
  · have hp := searchPat_strip_tracking pTag "/p".data (by decide) url
    have hr := searchPat_strip_tracking reelTag "/reel".data (by decide) url
    have htv := searchPat_strip_tracking tvTag "/tv".data (by decide) url
    simp only [extract_shortcode, hp, hr, htv]

/-- Witness for C5 at concrete references: the spec's example, a first-match
capture, a reel-shaped reference, and tracking-suffix invariance. -/
theorem C5_shortcode_extraction_witness :
    extract_shortcode "https://example.com/p/ABC123/?igsh=xyz".data
      = some "ABC123".data ∧
    extract_shortcode "https://instagram.com/p/AB12/x".data = some "AB12".data ∧
    (extract_shortcode "https://instagram.com/reel/Xy-9_z/".data).isSome = true ∧
    extract_shortcode ("https://instagram.com/tv/T1/".data ++ "?igsh=xyz".data)
      = extract_shortcode "https://instagram.com/tv/T1/".data := by
  refine ⟨(C5_shortcode_extraction "https://example.com/p/ABC123/?igsh=xyz".data).2.2.2.2,
    (C5_shortcode_extraction "https://instagram.com/p/AB12/x".data).1 "AB12".data
      (by decide),
    (C5_shortcode_extraction "https://instagram.com/reel/Xy-9_z/".data).2.1
      (Or.inr (Or.inl ⟨"https://instagram.com".data, 'X', "y-9_z/".data,
        by decide, by decide⟩)),
    (C5_shortcode_extraction "https://instagram.com/tv/T1/".data).2.2.2.1⟩

/-! ## Lemmas about job outcomes and the engine -/

/-- Whether the retry loop for this URL would reach a successful fetch —
a function of the fetch oracle and the URL alone. -/
def jobSucceeds (fetch : Fetch) (url : List Char) : Bool :=
  match extract_shortcode url with
  | none => false
  | some sc => (retryAux fetch (fun _ => 0) sc [] 0 max_retries_per_url).2.1

lemma retryAux_flag_indep (fetch : Fetch) (sc : List Char)
    (rng rng2 : Nat → Fin 3) (ts ts2 : List Char) :
    ∀ fuel a, (retryAux fetch rng sc ts a fuel).2.1
      = (retryAux fetch rng2 sc ts2 a fuel).2.1 := by
  intro fuel
  induction fuel with
  | zero => intro a; rfl
  | succ n ih =>
    intro a
    cases hk : fetch sc a with
    | ok p => simp [retryAux, hk]
    | err k => simp [retryAux, hk, ih (a + 1)]

lemma retryAux_data_isSome_of_flag (fetch : Fetch) (rng : Nat → Fin 3)
    (sc ts : List Char) :
    ∀ fuel a, (retryAux fetch rng sc ts a fuel).2.1 = true →
      (retryAux fetch rng sc ts a fuel).1.isSome = true := by
  intro fuel
  induction fuel with
  | zero => intro a h; simp [retryAux] at h
  | succ n ih =>
    intro a h
    cases hk : fetch sc a with
    | ok p => simp [retryAux, hk]
    | err k =>
      simp only [retryAux, hk] at h ⊢
      exact ih (a + 1) h

lemma extract_status_success_iff (fetch : Fetch) (rng : Nat → Fin 3)
    (ts url : List Char) (rc : Nat) :
    ((extract_post_data_with_retries fetch rng ts url rc).status = "SUCCESS".data
      ↔ jobSucceeds fetch url = true) ∧
    ((extract_post_data_with_retries fetch rng ts url rc).status = "SUCCESS".data →
      (extract_post_data_with_retries fetch rng ts url rc).data.isSome = true) := by
  cases hsc : extract_shortcode url with
  | none =>
    constructor
    · simp only [extract_post_data_with_retries, hsc, jobSucceeds]
      constructor
      · intro h; exact absurd h (by decide)
      · intro h; exact absurd h (by simp)
    · simp only [extract_post_data_with_retries, hsc]
      intro h; exact absurd h (by decide)
  | some sc =>
    have hflag := retryAux_flag_indep fetch sc rng (fun _ => 0) ts []
      max_retries_per_url 0
    constructor
    · simp only [extract_post_data_with_retries, hsc, jobSucceeds]
      cases hf : (retryAux fetch rng sc ts 0 max_retries_per_url).2.1
      · rw [hf] at hflag
        simp only [Bool.false_eq_true, if_false, ← hflag]
        constructor
        · intro h; exact absurd h (by decide)
        · intro h; exact absurd h (by simp)
      · rw [hf] at hflag
        simp [← hflag]
    · simp only [extract_post_data_with_retries, hsc]
      cases hf : (retryAux fetch rng sc ts 0 max_retries_per_url).2.1
      · simp only [Bool.false_eq_true, if_false]
        intro h; exact absurd h (by decide)
      · simp only [if_true]
        intro _
        exact retryAux_data_isSome_of_flag fetch rng sc ts max_retries_per_url 0 hf

/-- The success marker of a written row (shared form of the C3 analysis,
for use by the engine lemmas). -/
lemma update_row_success_iff (url : List Char) (data : Option PostData)
    (status : List Char) (rc : Nat) (ts : List Char) :
    isSuccessRow (update_sheet_row url data status rc ts) = true ↔
      (data.isSome = true ∧ status = "SUCCESS".data) := by
  match data with
  | none =>
    rw [update_sheet_row, isSuccessRow_fail_shape]
    constructor
    · intro h; exact absurd h (by decide)
    · rintro ⟨h, -⟩; simp at h
  | some d =>
    by_cases hst : status = "SUCCESS".data
    · rw [update_sheet_row, if_pos hst, isSuccessRow_success_shape]
      exact ⟨fun _ => ⟨rfl, hst⟩, fun _ => rfl⟩
    · rw [update_sheet_row, if_neg hst, isSuccessRow_fail_shape]
      constructor
      · intro h; exact absurd h (by decide)
      · rintro ⟨-, h⟩; exact absurd h hst

lemma update_row_cell0 (url : List Char) (data : Option PostData)
    (status : List Char) (rc : Nat) (ts : List Char) :
    List.getD (update_sheet_row url data status rc ts) 0 [] = url := by
  match data with
  | none => rw [update_sheet_row]; rfl
  | some d =>
    by_cases hst : status = "SUCCESS".data
    · rw [update_sheet_row, if_pos hst]; rfl
    · rw [update_sheet_row, if_neg hst]; rfl

lemma dropWhile_head_false (p : Char → Bool) (l : List Char)
    (h : ∀ c, l.head? = some c → p c = false) : l.dropWhile p = l := by
  cases l with
  | nil => rfl
  | cons x xs => simp [List.dropWhile_cons, h x rfl]

lemma head?_of_dropWhile (p : Char → Bool) (l : List Char) (c : Char)
    (h : (l.dropWhile p).head? = some c) : p c = false := by
  have hm := List.head?_dropWhile_not p l
  rw [h] at hm
  exact hm

lemma getLast?_of_suffix {l1 l2 : List Char} (h : l1 <:+ l2) (hne : l1 ≠ []) :
    l2.getLast? = l1.getLast? := by
  obtain ⟨pre, hp⟩ := h
  rw [← hp, List.getLast?_append]
  cases hgl : l1.getLast? with
  | none => exact absurd (List.getLast?_eq_none_iff.mp hgl) hne
  | some x => rfl

lemma pystrip_boundary (s : List Char) :
    (∀ c, (pystrip s).head? = some c → isWs c = false) ∧
    (∀ c, (pystrip s).getLast? = some c → isWs c = false) := by
  constructor
  · intro c h
    rw [show pystrip s
        = ((s.dropWhile isWs).reverse.dropWhile isWs).reverse from rfl,
      List.head?_reverse] at h
    have hY : (s.dropWhile isWs).reverse.dropWhile isWs ≠ [] := by
      intro h0
      rw [h0] at h
      simp at h
    have hsuf : (s.dropWhile isWs).reverse.dropWhile isWs
        <:+ (s.dropWhile isWs).reverse := List.dropWhile_suffix isWs
    rw [← getLast?_of_suffix hsuf hY, List.getLast?_reverse] at h
    exact head?_of_dropWhile isWs s c h
  · intro c h
    rw [show pystrip s
        = ((s.dropWhile isWs).reverse.dropWhile isWs).reverse from rfl,
      List.getLast?_reverse] at h
    exact head?_of_dropWhile isWs (s.dropWhile isWs).reverse c h

lemma pystrip_eq_self (l : List Char)
    (hh : ∀ c, l.head? = some c → isWs c = false)
    (hl : ∀ c, l.getLast? = some c → isWs c = false) : pystrip l = l := by
  have h2 : l.reverse.dropWhile isWs = l.reverse := by
    apply dropWhile_head_false
    intro c h
    rw [List.head?_reverse] at h
    exact hl c h
  show ((l.dropWhile isWs).reverse.dropWhile isWs).reverse = l
  rw [dropWhile_head_false isWs l hh, h2, List.reverse_reverse]

lemma pystrip_idem (s : List Char) : pystrip (pystrip s) = pystrip s :=
  pystrip_eq_self _ (pystrip_boundary s).1 (pystrip_boundary s).2

lemma mem_collectAux :
    ∀ (rows : List Row) (k i : Nat) (u : List Char),
      ((i, u) ∈ collectAux k rows) ↔
        ∃ j, j < rows.length ∧ i = k + j
          ∧ rowPending (rows.getD j []) = true ∧ u = rowUrl (rows.getD j []) := by
  intro rows
  induction rows with
  | nil => intro k i u; simp [collectAux]
  | cons row rest ih =>
    intro k i u
    by_cases hp : rowPending row
    · simp only [collectAux, hp, if_true]
      constructor
      · intro hm
        rcases List.mem_cons.mp hm with hm | hm
        · obtain ⟨hi, hu⟩ := Prod.mk.injEq i u k (rowUrl row) ▸ hm
          exact ⟨0, by simp, by omega, by simpa using hp, by simpa using hu⟩
        · obtain ⟨j, hj, hi, hpend, hu⟩ := (ih (k + 1) i u).mp hm
          exact ⟨j + 1, by simpa using hj, by omega, by simpa using hpend,
            by simpa using hu⟩
      · rintro ⟨j, hj, hi, hpend, hu⟩
        cases j with
        | zero =>
          have hi2 : i = k := by omega
          have hu2 : u = rowUrl row := by simpa using hu
          subst hi2
          subst hu2
          exact List.mem_cons_self _ _
        | succ j2 =>
          refine List.mem_cons_of_mem _ ((ih (k + 1) i u).mpr ?_)
          exact ⟨j2, by simpa using hj, by omega, by simpa using hpend,
            by simpa using hu⟩
    · simp only [collectAux, hp, Bool.false_eq_true, if_false]
      constructor
      · intro hm
        obtain ⟨j, hj, hi, hpend, hu⟩ := (ih (k + 1) i u).mp hm
        exact ⟨j + 1, by simpa using hj, by omega, by simpa using hpend,
          by simpa using hu⟩
      · rintro ⟨j, hj, hi, hpend, hu⟩
        cases j with
        | zero =>
          rw [show List.getD (row :: rest) 0 ([] : Row) = row from rfl] at hpend
          exact absurd hpend (by simpa using hp)
        | succ j2 =>
          refine (ih (k + 1) i u).mpr ?_
          exact ⟨j2, by simpa using hj, by omega, by simpa using hpend,
            by simpa using hu⟩

lemma collectAux_fst_ge :
    ∀ (rows : List Row) (k i : Nat) (u : List Char),
      (i, u) ∈ collectAux k rows → k ≤ i := by
  intro rows k i u hm
  obtain ⟨j, -, hi, -, -⟩ := (mem_collectAux rows k i u).mp hm
  omega

lemma collectAux_pairwise :
    ∀ (rows : List Row) (k : Nat),
      (collectAux k rows).Pairwise (fun a b => a.1 < b.1) := by
  intro rows
  induction rows with
  | nil => intro k; simp [collectAux]
  | cons row rest ih =>
    intro k
    by_cases hp : rowPending row
    · simp only [collectAux, hp, if_true]
      refine List.Pairwise.cons ?_ (ih (k + 1))
      intro b hb
      have hge : k + 1 ≤ b.1 := collectAux_fst_ge rest (k + 1) b.1 b.2 hb
      omega
    · simp only [collectAux, hp, Bool.false_eq_true, if_false]
      exact ih (k + 1)

lemma mem_collect_failed (st : Store) (i : Nat) (u : List Char) :
    (i, u) ∈ collect_failed_urls st ↔
      2 ≤ i ∧ i - 1 < st.length
        ∧ rowPending (st.getD (i - 1) []) = true
        ∧ u = rowUrl (st.getD (i - 1) []) := by
  unfold collect_failed_urls
  rw [mem_collectAux]
  constructor
  · rintro ⟨j, hj, hi, hpend, hu⟩
    have hget : List.getD (st.drop 1) j ([] : Row) = st.getD (j + 1) [] := by
      simp [List.getD, List.getElem?_drop, Nat.add_comm]
    rw [hget] at hpend hu
    have hlen : st.drop 1 = st.drop 1 := rfl
    refine ⟨by omega, ?_, ?_, ?_⟩
    · have := List.length_drop 1 st ▸ hj
      omega
    · rw [show i - 1 = j + 1 by omega]
      exact hpend
    · rw [show i - 1 = j + 1 by omega]
      exact hu
  · rintro ⟨h2, hlen, hpend, hu⟩
    refine ⟨i - 2, ?_, by omega, ?_, ?_⟩
    · rw [List.length_drop]
      omega
    · have hget : List.getD (st.drop 1) (i - 2) ([] : Row)
          = st.getD (i - 2 + 1) [] := by
        simp [List.getD, List.getElem?_drop, Nat.add_comm]
      rw [hget, show i - 2 + 1 = i - 1 by omega]
      exact hpend
    · have hget : List.getD (st.drop 1) (i - 2) ([] : Row)
          = st.getD (i - 2 + 1) [] := by
        simp [List.getD, List.getElem?_drop, Nat.add_comm]
      rw [hget, show i - 2 + 1 = i - 1 by omega]
      exact hu

lemma processJobs_length (fetch : Fetch) (rng : Nat → Fin 3) (ts : List Char) :
    ∀ (jobs : List (Nat × List Char)) (st : Store),
      ((processJobs fetch rng ts jobs st).1).length = st.length := by
  intro jobs
  induction jobs with
  | nil => intro st; rfl
  | cons j rest ih =>
    intro st
    obtain ⟨r, u⟩ := j
    simp only [processJobs]
    rw [ih]
    simp [writeRow]

lemma processJobs_untouched (fetch : Fetch) (rng : Nat → Fin 3) (ts : List Char) :
    ∀ (jobs : List (Nat × List Char)) (st : Store) (idx : Nat),
      (∀ u, (idx + 1, u) ∉ jobs) → (∀ p ∈ jobs, 1 ≤ Prod.fst p) →
      ((processJobs fetch rng ts jobs st).1).getD idx [] = st.getD idx [] := by
  intro jobs
  induction jobs with
  | nil => intro st idx _ _; rfl
  | cons j rest ih =>
    intro st idx hn h1
    obtain ⟨r, u⟩ := j
    simp only [processJobs]
    rw [ih _ idx (fun u2 hu2 => hn u2 (List.mem_cons_of_mem _ hu2))
      (fun p hp => h1 p (List.mem_cons_of_mem _ hp))]
    have hr1 : 1 ≤ r := h1 (r, u) (List.mem_cons_self _ _)
    have hne : r ≠ idx + 1 := by
      intro he
      exact hn u (by rw [← he]; exact List.mem_cons_self _ _)
    show (List.set st (r - 1) _).getD idx [] = st.getD idx []
    apply getD_set_ne
    omega

lemma processJobs_at (fetch : Fetch) (rng : Nat → Fin 3) (ts : List Char) :
    ∀ (jobs : List (Nat × List Char)) (st : Store) (r : Nat) (u : List Char),
      (r, u) ∈ jobs → jobs.Pairwise (fun a b => a.1 < b.1) →
      (∀ p ∈ jobs, 1 ≤ Prod.fst p) → r - 1 < st.length →
      ((processJobs fetch rng ts jobs st).1).getD (r - 1) []
        = update_sheet_row u
            (extract_post_data_with_retries fetch rng ts u 0).data
            (extract_post_data_with_retries fetch rng ts u 0).status
            (extract_post_data_with_retries fetch rng ts u 0).retryCount ts := by
  intro jobs
  induction jobs with
  | nil => intro st r u h; intro _ _ _; simp at h
  | cons j rest ih =>
    intro st r u hmem hpw h1 hlen
    obtain ⟨r0, u0⟩ := j
    rcases List.mem_cons.mp hmem with he | hm
    · obtain ⟨hr, hu⟩ := Prod.mk.injEq r u r0 u0 ▸ he
      subst hr
      subst hu
      simp only [processJobs]
      have hr1 : 1 ≤ r := h1 (r, u) (List.mem_cons_self _ _)
      rw [processJobs_untouched fetch rng ts rest _ (r - 1) ?hnotin ?hge]
      case hnotin =>
        intro u2 hu2
        have := (List.pairwise_cons.mp hpw).1 (r - 1 + 1, u2) hu2
        simp at this
        omega
      case hge =>
        intro p hp
        exact h1 p (List.mem_cons_of_mem _ hp)
      show (List.set st (r - 1) _).getD (r - 1) [] = _
      rw [getD_set_self _ _ _ _ hlen]
    · simp only [processJobs]
      apply ih _ r u hm (List.pairwise_cons.mp hpw).2
        (fun p hp => h1 p (List.mem_cons_of_mem _ hp))
      show r - 1 < (List.set st (r0 - 1) _).length
      simpa using hlen

lemma processJobs_trace (fetch : Fetch) (rng : Nat → Fin 3) (ts : List Char) :
    ∀ (jobs : List (Nat × List Char)) (st : Store),
      (processJobs fetch rng ts jobs st).2.2 = jobs.map
        (fun j => (j.1, (extract_post_data_with_retries fetch rng ts j.2 0).status)) := by
  intro jobs
  induction jobs with
  | nil => intro st; rfl
  | cons j rest ih =>
    intro st
    obtain ⟨r, u⟩ := j
    simp [processJobs, ih]

lemma collect_not_mem_of_not_pending (st : Store) (idx : Nat)
    (h : idx = 0 ∨ rowPending (st.getD idx []) = false) :
    ∀ u, (idx + 1, u) ∉ collect_failed_urls st := by
  intro u hm
  obtain ⟨h2, hlen, hpend, -⟩ := (mem_collect_failed st (idx + 1) u).mp hm
  rcases h with h0 | hnp
  · omega
  · rw [show idx + 1 - 1 = idx from rfl, hnp] at hpend
    exact absurd hpend (by simp)

lemma collect_fst_ge_one (st : Store) :
    ∀ p ∈ collect_failed_urls st, 1 ≤ Prod.fst p := by
  intro p hp
  obtain ⟨h2, -, -, -⟩ := (mem_collect_failed st p.1 p.2).mp hp
  omega

lemma collect_pairwise (st : Store) :
    (collect_failed_urls st).Pairwise (fun a b => a.1 < b.1) :=
  collectAux_pairwise (st.drop 1) 2

lemma batch_trace_not_mem (fetch : Fetch) (rng : Nat → Fin 3) (ts : List Char)
    (st : Store) (idx : Nat)
    (hnm : ∀ u, (idx + 1, u) ∉ collect_failed_urls st) :
    ∀ u2, (idx + 1, u2)
      ∉ (processJobs fetch rng ts (collect_failed_urls st) st).2.2 := by
  intro u2 hm
  rw [processJobs_trace] at hm
  obtain ⟨j0, hj0, heq⟩ := List.mem_map.mp hm
  have hfst : j0.1 = idx + 1 := congrArg Prod.fst heq
  have : (idx + 1, j0.2) = j0 := by
    rw [← hfst]
  exact hnm j0.2 (this ▸ hj0)

lemma persistAux_length (fetch : Fetch) (rng : Nat → Fin 3) (ts : List Char) :
    ∀ (fuel total : Nat) (st : Store),
      ((persistAux fetch rng ts fuel total st).1).length = st.length := by
  intro fuel
  induction fuel with
  | zero => intro total st; rfl
  | succ n ih =>
    intro total st
    by_cases hsmall : st.length ≤ 1
    · simp [persistAux, hsmall]
    · by_cases hempty : (collect_failed_urls st).isEmpty
      · simp [persistAux, hsmall, hempty]
      · by_cases hrem : (collect_failed_urls st).length
            - (processJobs fetch rng ts (collect_failed_urls st) st).2.1 = 0
        · simp [persistAux, hsmall, hempty, hrem, processJobs_length]
        · simp [persistAux, hsmall, hempty, hrem, ih, processJobs_length]

lemma persistAux_untouched (fetch : Fetch) (rng : Nat → Fin 3) (ts : List Char) :
    ∀ (fuel total : Nat) (st : Store) (idx : Nat),
      (idx = 0 ∨ rowPending (st.getD idx []) = false) →
      ((persistAux fetch rng ts fuel total st).1).getD idx [] = st.getD idx []
        ∧ ∀ u, (idx + 1, u) ∉ (persistAux fetch rng ts fuel total st).2.2 := by
  intro fuel
  induction fuel with
  | zero =>
    intro total st idx _
    exact ⟨rfl, by simp [persistAux]⟩
  | succ n ih =>
    intro total st idx h
    by_cases hsmall : st.length ≤ 1
    · constructor
      · simp [persistAux, hsmall]
      · simp [persistAux, hsmall]
    · have hnm := collect_not_mem_of_not_pending st idx h
      by_cases hempty : (collect_failed_urls st).isEmpty
      · constructor
        · simp [persistAux, hsmall, hempty]
        · simp [persistAux, hsmall, hempty]
      · have huntouched := processJobs_untouched fetch rng ts
          (collect_failed_urls st) st idx hnm (collect_fst_ge_one st)
        have htr := batch_trace_not_mem fetch rng ts st idx hnm
        have hpres : idx = 0 ∨ rowPending
            (((processJobs fetch rng ts (collect_failed_urls st) st).1).getD idx [])
              = false := by
          rw [huntouched]
          exact h
        by_cases hrem : (collect_failed_urls st).length
            - (processJobs fetch rng ts (collect_failed_urls st) st).2.1 = 0
        · constructor
          · simpa [persistAux, hsmall, hempty, hrem] using huntouched
          · intro u
            simp only [persistAux, hsmall, hempty, hrem]
            simpa using htr u
        · have hrec := ih (total + (processJobs fetch rng ts
            (collect_failed_urls st) st).2.1)
            ((processJobs fetch rng ts (collect_failed_urls st) st).1) idx hpres
          constructor
          · have hgoal : ((persistAux fetch rng ts (n + 1) total st).1).getD idx []
                = ((persistAux fetch rng ts n
                    (total + (processJobs fetch rng ts (collect_failed_urls st) st).2.1)
                    ((processJobs fetch rng ts (collect_failed_urls st) st).1)).1).getD
                  idx [] := by
              simp [persistAux, hsmall, hempty, hrem]
            rw [hgoal, hrec.1, huntouched]
          · intro u hm
            have hm2 : (idx + 1, u)
                ∈ (processJobs fetch rng ts (collect_failed_urls st) st).2.2
                  ++ (persistAux fetch rng ts n
                    (total + (processJobs fetch rng ts (collect_failed_urls st) st).2.1)
                    ((processJobs fetch rng ts (collect_failed_urls st) st).1)).2.2 := by
              simpa [persistAux, hsmall, hempty, hrem] using hm
            rcases List.mem_append.mp hm2 with hm3 | hm3
            · exact htr u hm3
            · exact hrec.2 u hm3

lemma getD_zero_of_head (row : Row) (c0 : List Char)
    (h : List.head? (α := List Char) row = some c0) :
    List.getD row 0 [] = c0 := by
  cases row with
  | nil => simp at h
  | cons a l =>
    have : a = c0 := by simpa using h
    rw [this]
    rfl

lemma rowPending_false_of_bad (row : Row)
    (hbad : "http".data.isPrefixOf (rowUrl row) = false
          ∨ containsSubstr "instagram.com".data (rowUrl row) = false) :
    rowPending row = false := by
  cases hrow : List.head? (α := List Char) row with
  | none => simp [rowPending, hrow]
  | some c0 =>
    have hurl : rowUrl row = pystrip c0 := by
      rw [rowUrl, getD_zero_of_head row c0 hrow]
    simp only [rowPending, hrow]
    rcases hbad with hb | hb
    · rw [hurl] at hb
      simp [hb]
    · rw [hurl] at hb
      simp [hb]

lemma mem_collectAuxPro :
    ∀ (rows : List Row) (k i : Nat) (u : List Char),
      (i, u) ∈ collectAuxPro k rows →
        ∃ j, j < rows.length ∧ i = k + j
          ∧ "http".data.isPrefixOf (rowUrl (rows.getD j [])) = true
          ∧ containsSubstr "instagram.com".data (rowUrl (rows.getD j [])) = true := by
  intro rows
  induction rows with
  | nil => intro k i u h; simp [collectAuxPro] at h
  | cons row rest ih =>
    intro k i u hm
    cases hrow : List.head? (α := List Char) row with
    | none =>
      simp only [collectAuxPro, hrow] at hm
      obtain ⟨j, hj, hi, hp, hc⟩ := ih (k + 1) i u hm
      exact ⟨j + 1, by simpa using hj, by omega, by simpa using hp,
        by simpa using hc⟩
    | some c0 =>
      have hurl : rowUrl row = pystrip c0 := by
        rw [rowUrl, getD_zero_of_head row c0 hrow]
      by_cases hcond : (!(pystrip c0).isEmpty
          && "http".data.isPrefixOf (pystrip c0)
          && containsSubstr "instagram.com".data (pystrip c0)) = true
      · simp only [collectAuxPro, hrow, hcond, if_true] at hm
        rcases List.mem_cons.mp hm with hm | hm
        · obtain ⟨hi, hu⟩ := Prod.mk.injEq i u k (pystrip c0) ▸ hm
          refine ⟨0, by simp, by omega, ?_, ?_⟩
          · rw [show List.getD (row :: rest) 0 ([] : Row) = row from rfl, hurl]
            simp only [Bool.and_eq_true] at hcond
            exact hcond.1.2
          · rw [show List.getD (row :: rest) 0 ([] : Row) = row from rfl, hurl]
            simp only [Bool.and_eq_true] at hcond
            exact hcond.2
        · obtain ⟨j, hj, hi, hp, hc⟩ := ih (k + 1) i u hm
          exact ⟨j + 1, by simpa using hj, by omega, by simpa using hp,
            by simpa using hc⟩
      · simp only [collectAuxPro, hrow, hcond, Bool.false_eq_true, if_false] at hm
        obtain ⟨j, hj, hi, hp, hc⟩ := ih (k + 1) i u (by
          simpa using hm)
        exact ⟨j + 1, by simpa using hj, by omega, by simpa using hp,
          by simpa using hc⟩

lemma mem_collect_pro (st : Store) (i : Nat) (u : List Char)
    (hm : (i, u) ∈ collect_urls_professional st) :
    2 ≤ i ∧ i - 1 < st.length
      ∧ "http".data.isPrefixOf (rowUrl (st.getD (i - 1) [])) = true
      ∧ containsSubstr "instagram.com".data (rowUrl (st.getD (i - 1) [])) = true := by
  obtain ⟨j, hj, hi, hp, hc⟩ := mem_collectAuxPro (st.drop 1) 2 i u hm
  have hget : List.getD (st.drop 1) j ([] : Row) = st.getD (j + 1) [] := by
    simp [List.getD, List.getElem?_drop, Nat.add_comm]
  rw [hget] at hp hc
  have hlen := List.length_drop 1 st ▸ hj
  refine ⟨by omega, by omega, ?_, ?_⟩
  · rw [show i - 1 = j + 1 by omega]
    exact hp
  · rw [show i - 1 = j + 1 by omega]
    exact hc

/-- Claim C10, confirmed.  A row whose stripped reference cell is nonempty
but either does not start with `http` or does not contain `instagram.com`
is silently excluded: the persistent engine never processes a job for that
row (its sheet row number never appears in the job trace) and never writes
to it, so the row is unchanged after a full run and no failure status is
ever recorded on it; the professional engine's URL collection excludes it
as well. -/
theorem C10_filtered_row_untouched (fetch : Fetch) (rng : Nat → Fin 3)
    (ts : List Char) (st : Store) (idx : Nat)
    (_hne : rowUrl (st.getD idx []) ≠ [])
    (hbad : "http".data.isPrefixOf (rowUrl (st.getD idx [])) = false
          ∨ containsSubstr "instagram.com".data (rowUrl (st.getD idx [])) = false) :
    ((process_urls_persistently fetch rng ts st).1).getD idx [] = st.getD idx [] ∧
    (∀ u, (idx + 1, u) ∉ (process_urls_persistently fetch rng ts st).2.2) ∧
    (∀ u, (idx + 1, u) ∉ collect_urls_professional st) := by
  have hpend : rowPending (st.getD idx []) = false :=
    rowPending_false_of_bad _ hbad
  have hmain := persistAux_untouched fetch rng ts max_total_attempts 0 st idx
    (Or.inr hpend)
  refine ⟨hmain.1, hmain.2, ?_⟩
  intro u hm
  obtain ⟨-, -, hp, hc⟩ := mem_collect_pro st (idx + 1) u hm
  rw [show idx + 1 - 1 = idx from rfl] at hp hc
  rcases hbad with hb | hb
  · rw [hb] at hp
    exact absurd hp (by simp)
  · rw [hb] at hc
    exact absurd hc (by simp)

/-- Witness for C10 at a concrete store with one non-URL row. -/
theorem C10_filtered_row_untouched_witness :
    ((process_urls_persistently (fun _ _ => FetchResult.err FailureKind.transient)
        (fun _ => 0) "ts".data
        [["Header".data], ["not a link".data, "x".data]]).1).getD 1 []
      = List.getD [["Header".data], ["not a link".data, "x".data]] 1 [] ∧
    (∀ u, (2, u) ∉ (process_urls_persistently
        (fun _ _ => FetchResult.err FailureKind.transient) (fun _ => 0) "ts".data
        [["Header".data], ["not a link".data, "x".data]]).2.2) := by
  have h := C10_filtered_row_untouched
    (fun _ _ => FetchResult.err FailureKind.transient) (fun _ => 0) "ts".data
    [["Header".data], ["not a link".data, "x".data]] 1
    (by decide) (Or.inl (by decide))
  exact ⟨h.1, h.2.1⟩

/-- The URL filter of `_collect_failed_urls`: nonempty, starts with `http`,
contains `instagram.com`. -/
def urlOk (u : List Char) : Bool :=
  !u.isEmpty && "http".data.isPrefixOf u && containsSubstr "instagram.com".data u

lemma rowPending_eq (row : Row) :
    rowPending row = (urlOk (rowUrl row) && !isSuccessRow row) := by
  cases hrow : List.head? (α := List Char) row with
  | none =>
    cases row with
    | nil => rfl
    | cons a l => simp at hrow
  | some c0 =>
    have hurl : rowUrl row = pystrip c0 := by
      rw [rowUrl, getD_zero_of_head row c0 hrow]
    simp only [rowPending, hrow, hurl, urlOk, isSuccessRow, Bool.and_assoc]

/-- Relation between a store and the store an engine run leaves behind:
every data row is either untouched, or was pending and has been rewritten —
keeping its (stripped) URL — with a success marker exactly when the job for
that URL succeeds under the fetch oracle. -/
def runRel (fetch : Fetch) (st s2 : Store) : Prop :=
  s2.length = st.length ∧
  ∀ idx, 1 ≤ idx → idx < st.length →
    s2.getD idx [] = st.getD idx [] ∨
    (rowPending (st.getD idx []) = true ∧
     rowUrl (s2.getD idx []) = rowUrl (st.getD idx []) ∧
     (isSuccessRow (s2.getD idx []) = true ↔
       jobSucceeds fetch (rowUrl (st.getD idx [])) = true))

lemma runRel_refl (fetch : Fetch) (st : Store) : runRel fetch st st :=
  ⟨rfl, fun _ _ _ => Or.inl rfl⟩

lemma runRel_trans (fetch : Fetch) {s1 s2 s3 : Store}
    (h12 : runRel fetch s1 s2) (h23 : runRel fetch s2 s3) :
    runRel fetch s1 s3 := by
  obtain ⟨hl12, hr12⟩ := h12
  obtain ⟨hl23, hr23⟩ := h23
  refine ⟨hl23.trans hl12, ?_⟩
  intro idx h1 hlt
  rcases hr23 idx h1 (by rw [hl12]; exact hlt) with h3 | ⟨hp2, hu3, hs3⟩
  · rcases hr12 idx h1 hlt with h2 | hw
    · exact Or.inl (h3.trans h2)
    · right
      rw [h3]
      exact hw
  · rcases hr12 idx h1 hlt with h2 | ⟨hp1, hu2, hs2⟩
    · rw [h2] at hp2 hu3 hs3
      exact Or.inr ⟨hp2, hu3, hs3⟩
    · right
      refine ⟨hp1, hu3.trans hu2, ?_⟩
      rw [hu2] at hs3
      exact hs3

lemma batch_written_row (fetch : Fetch) (rng : Nat → Fin 3) (ts : List Char)
    (st : Store) (idx : Nat) (h1 : 1 ≤ idx) (hlt : idx < st.length)
    (hpend : rowPending (st.getD idx []) = true) :
    ((processJobs fetch rng ts (collect_failed_urls st) st).1).getD idx []
      = update_sheet_row (rowUrl (st.getD idx []))
          (extract_post_data_with_retries fetch rng ts (rowUrl (st.getD idx [])) 0).data
          (extract_post_data_with_retries fetch rng ts (rowUrl (st.getD idx [])) 0).status
          (extract_post_data_with_retries fetch rng ts (rowUrl (st.getD idx [])) 0).retryCount
          ts := by
  have hmem : (idx + 1, rowUrl (st.getD idx [])) ∈ collect_failed_urls st := by
    rw [mem_collect_failed]
    exact ⟨by omega, by simpa using hlt, by simpa using hpend, by simp⟩
  have hat := processJobs_at fetch rng ts (collect_failed_urls st) st (idx + 1)
    (rowUrl (st.getD idx [])) hmem (collect_pairwise st) (collect_fst_ge_one st)
    (by simpa using hlt)
  rw [show idx + 1 - 1 = idx from rfl] at hat
  exact hat

lemma batch_rel (fetch : Fetch) (rng : Nat → Fin 3) (ts : List Char) (st : Store) :
    runRel fetch st (processJobs fetch rng ts (collect_failed_urls st) st).1 := by
  refine ⟨processJobs_length fetch rng ts _ st, ?_⟩
  intro idx h1 hlt
  by_cases hpend : rowPending (st.getD idx []) = true
  · right
    have hat := batch_written_row fetch rng ts st idx h1 hlt hpend
    refine ⟨hpend, ?_, ?_⟩
    · rw [hat, rowUrl, update_row_cell0]
      show pystrip (rowUrl (st.getD idx [])) = rowUrl (st.getD idx [])
      rw [rowUrl]
      exact pystrip_idem _
    · rw [hat, update_row_success_iff]
      have hiff := extract_status_success_iff fetch rng ts (rowUrl (st.getD idx [])) 0
      constructor
      · rintro ⟨-, hst⟩
        exact hiff.1.mp hst
      · intro hjs
        have hst := hiff.1.mpr hjs
        exact ⟨hiff.2 hst, hst⟩
  · left
    have hnp : rowPending (st.getD idx []) = false := by
      cases h : rowPending (st.getD idx [])
      · rfl
      · exact absurd h hpend
    exact processJobs_untouched fetch rng ts _ st idx
      (collect_not_mem_of_not_pending st idx (Or.inr hnp)) (collect_fst_ge_one st)

lemma persistAux_rel (fetch : Fetch) (rng : Nat → Fin 3) (ts : List Char) :
    ∀ (fuel total : Nat) (st : Store),
      runRel fetch st (persistAux fetch rng ts fuel total st).1 := by
  intro fuel
  induction fuel with
  | zero => intro total st; exact runRel_refl fetch st
  | succ n ih =>
    intro total st
    by_cases hsmall : st.length ≤ 1
    · have he : (persistAux fetch rng ts (n + 1) total st).1 = st := by
        simp [persistAux, hsmall]
      rw [he]
      exact runRel_refl fetch st
    · by_cases hempty : (collect_failed_urls st).isEmpty
      · have he : (persistAux fetch rng ts (n + 1) total st).1 = st := by
          simp [persistAux, hsmall, hempty]
        rw [he]
        exact runRel_refl fetch st
      · by_cases hrem : (collect_failed_urls st).length
            - (processJobs fetch rng ts (collect_failed_urls st) st).2.1 = 0
        · have he : (persistAux fetch rng ts (n + 1) total st).1
              = (processJobs fetch rng ts (collect_failed_urls st) st).1 := by
            simp [persistAux, hsmall, hempty, hrem]
          rw [he]
          exact batch_rel fetch rng ts st
        · have he : (persistAux fetch rng ts (n + 1) total st).1
              = (persistAux fetch rng ts n
                  (total + (processJobs fetch rng ts (collect_failed_urls st) st).2.1)
                  (processJobs fetch rng ts (collect_failed_urls st) st).1).1 := by
            simp [persistAux, hsmall, hempty, hrem]
          rw [he]
          exact runRel_trans fetch (batch_rel fetch rng ts st) (ih _ _)

/-- After an engine pass, every row with a valid URL and a non-success
status is a row whose job fails under the fetch oracle. -/
def storeInv (fetch : Fetch) (st : Store) : Prop :=
  ∀ idx, 1 ≤ idx → idx < st.length →
    urlOk (rowUrl (st.getD idx [])) = true →
    isSuccessRow (st.getD idx []) = false →
    jobSucceeds fetch (rowUrl (st.getD idx [])) = false

lemma storeInv_small (fetch : Fetch) (st : Store) (h : st.length ≤ 1) :
    storeInv fetch st := by
  intro idx h1 hlt
  omega

lemma storeInv_collectEmpty (fetch : Fetch) (st : Store)
    (h : (collect_failed_urls st).isEmpty = true) : storeInv fetch st := by
  intro idx h1 hlt hok hns
  have hpend : rowPending (st.getD idx []) = true := by
    rw [rowPending_eq, hok, hns]
    rfl
  have hmem : (idx + 1, rowUrl (st.getD idx [])) ∈ collect_failed_urls st := by
    rw [mem_collect_failed]
    exact ⟨by omega, by simpa using hlt, by simpa using hpend, by simp⟩
  rw [List.isEmpty_iff.mp h] at hmem
  simp at hmem

lemma batch_inv (fetch : Fetch) (rng : Nat → Fin 3) (ts : List Char) (st : Store) :
    storeInv fetch (processJobs fetch rng ts (collect_failed_urls st) st).1 := by
  intro idx h1 hlt hok hns
  have hlt0 : idx < st.length := by
    rw [← processJobs_length fetch rng ts (collect_failed_urls st) st]
    exact hlt
  by_cases hpend : rowPending (st.getD idx []) = true
  · have hat := batch_written_row fetch rng ts st idx h1 hlt0 hpend
    have hurl : rowUrl (((processJobs fetch rng ts (collect_failed_urls st) st).1).getD
        idx []) = rowUrl (st.getD idx []) := by
      rw [hat, rowUrl, update_row_cell0]
      show pystrip (rowUrl (st.getD idx [])) = rowUrl (st.getD idx [])
      rw [rowUrl]
      exact pystrip_idem _
    rw [hurl]
    cases hjs : jobSucceeds fetch (rowUrl (st.getD idx []))
    · rfl
    · exfalso
      have hiff := extract_status_success_iff fetch rng ts (rowUrl (st.getD idx [])) 0
      have hst := hiff.1.mpr hjs
      have hsucc : isSuccessRow (((processJobs fetch rng ts
          (collect_failed_urls st) st).1).getD idx []) = true := by
        rw [hat, update_row_success_iff]
        exact ⟨hiff.2 hst, hst⟩
      rw [hsucc] at hns
      exact absurd hns (by simp)
  · exfalso
    have hnp : rowPending (st.getD idx []) = false := by
      cases h : rowPending (st.getD idx [])
      · rfl
      · exact absurd h hpend
    have huntouched := processJobs_untouched fetch rng ts _ st idx
      (collect_not_mem_of_not_pending st idx (Or.inr hnp)) (collect_fst_ge_one st)
    rw [huntouched] at hok hns
    rw [rowPending_eq, hok, hns] at hnp
    exact absurd hnp (by simp)

lemma persistAux_inv (fetch : Fetch) (rng : Nat → Fin 3) (ts : List Char) :
    ∀ (fuel total : Nat) (st : Store), storeInv fetch st →
      storeInv fetch (persistAux fetch rng ts fuel total st).1 := by
  intro fuel
  induction fuel with
  | zero => intro total st h; exact h
  | succ n ih =>
    intro total st h
    by_cases hsmall : st.length ≤ 1
    · have he : (persistAux fetch rng ts (n + 1) total st).1 = st := by
        simp [persistAux, hsmall]
      rw [he]
      exact h
    · by_cases hempty : (collect_failed_urls st).isEmpty
      · have he : (persistAux fetch rng ts (n + 1) total st).1 = st := by
          simp [persistAux, hsmall, hempty]
        rw [he]
        exact h
      · by_cases hrem : (collect_failed_urls st).length
            - (processJobs fetch rng ts (collect_failed_urls st) st).2.1 = 0
        · have he : (persistAux fetch rng ts (n + 1) total st).1
              = (processJobs fetch rng ts (collect_failed_urls st) st).1 := by
            simp [persistAux, hsmall, hempty, hrem]
          rw [he]
          exact batch_inv fetch rng ts st
        · have he : (persistAux fetch rng ts (n + 1) total st).1
              = (persistAux fetch rng ts n
                  (total + (processJobs fetch rng ts (collect_failed_urls st) st).2.1)
                  (processJobs fetch rng ts (collect_failed_urls st) st).1).1 := by
            simp [persistAux, hsmall, hempty, hrem]
          rw [he]
          exact ih _ _ (batch_inv fetch rng ts st)

lemma run_inv (fetch : Fetch) (rng : Nat → Fin 3) (ts : List Char) (st : Store) :
    storeInv fetch (process_urls_persistently fetch rng ts st).1 := by
  show storeInv fetch (persistAux fetch rng ts (2 + 1) 0 st).1
  by_cases hsmall : st.length ≤ 1
  · have he : (persistAux fetch rng ts (2 + 1) 0 st).1 = st := by
      simp [persistAux, hsmall]
    rw [he]
    exact storeInv_small fetch st hsmall
  · by_cases hempty : (collect_failed_urls st).isEmpty
    · have he : (persistAux fetch rng ts (2 + 1) 0 st).1 = st := by
        simp [persistAux, hsmall, hempty]
      rw [he]
      exact storeInv_collectEmpty fetch st (by simpa using hempty)
    · by_cases hrem : (collect_failed_urls st).length
          - (processJobs fetch rng ts (collect_failed_urls st) st).2.1 = 0
      · have he : (persistAux fetch rng ts (2 + 1) 0 st).1
            = (processJobs fetch rng ts (collect_failed_urls st) st).1 := by
          simp [persistAux, hsmall, hempty, hrem]
        rw [he]
        exact batch_inv fetch rng ts st
      · have he : (persistAux fetch rng ts (2 + 1) 0 st).1
            = (persistAux fetch rng ts 2
                (0 + (processJobs fetch rng ts (collect_failed_urls st) st).2.1)
                (processJobs fetch rng ts (collect_failed_urls st) st).1).1 := by
          simp [persistAux, hsmall, hempty, hrem]
        rw [he]
        exact persistAux_inv fetch rng ts 2 _ _ (batch_inv fetch rng ts st)

lemma getD_out_of_range (st : Store) (idx : Nat) (h : st.length ≤ idx) :
    st.getD idx [] = [] := by
  simp [List.getD, List.getElem?_eq_none h]

/-- Claim C4, confirmed.  Running the persistent engine twice in a row over
the same store, with no external mutation in between and the same fetch
oracle (the remote returns the same results), leaves the set of
`✅ SUCCESS` rows unchanged, and the second run never rewrites a row whose
status is already `✅ SUCCESS` — regardless of the timestamps and
user-agent draws of the two runs.  The forced-refresh mode lives in the
realtime variant (`instagram_data_extractor.py`): with `FORCE_REFRESH` set,
its selection predicate re-queues every row, including rows already marked
fresh, which are skipped without it. -/
theorem C4_rerun_idempotent (fetch : Fetch) (rng1 rng2 : Nat → Fin 3)
    (ts1 ts2 : List Char) (st : Store) :
    (∀ idx, isSuccessRow
        (((process_urls_persistently fetch rng1 ts1 st).1).getD idx []) = true →
      ((process_urls_persistently fetch rng2 ts2
          (process_urls_persistently fetch rng1 ts1 st).1).1).getD idx []
        = ((process_urls_persistently fetch rng1 ts1 st).1).getD idx []) ∧
    (∀ idx, isSuccessRow
        (((process_urls_persistently fetch rng2 ts2
            (process_urls_persistently fetch rng1 ts1 st).1).1).getD idx []) = true
      ↔ isSuccessRow
          (((process_urls_persistently fetch rng1 ts1 st).1).getD idx []) = true) ∧
    (∀ row : Row, 12 ≤ row.length →
      containsSubstr "⚡ Fresh Data".data (List.getD row 11 []) = true →
      should_process_realtime false row = false
        ∧ should_process_realtime true row = true) := by
  have huntouched : ∀ idx, isSuccessRow
      (((process_urls_persistently fetch rng1 ts1 st).1).getD idx []) = true →
      ((process_urls_persistently fetch rng2 ts2
          (process_urls_persistently fetch rng1 ts1 st).1).1).getD idx []
        = ((process_urls_persistently fetch rng1 ts1 st).1).getD idx [] := by
    intro idx hsucc
    have hpend : rowPending
        (((process_urls_persistently fetch rng1 ts1 st).1).getD idx []) = false := by
      rw [rowPending_eq, hsucc]
      simp
    exact (persistAux_untouched fetch rng2 ts2 max_total_attempts 0
      (process_urls_persistently fetch rng1 ts1 st).1 idx (Or.inr hpend)).1
  refine ⟨huntouched, ?_, ?_⟩
  · intro idx
    constructor
    · intro hs2
      cases hs1 : isSuccessRow
          (((process_urls_persistently fetch rng1 ts1 st).1).getD idx []) with
      | true => rfl
      | false =>
        exfalso
        by_cases hidx0 : idx = 0
        · have he : ((process_urls_persistently fetch rng2 ts2
              (process_urls_persistently fetch rng1 ts1 st).1).1).getD idx []
                = ((process_urls_persistently fetch rng1 ts1 st).1).getD idx [] :=
            (persistAux_untouched fetch rng2 ts2 max_total_attempts 0
              (process_urls_persistently fetch rng1 ts1 st).1 idx (Or.inl hidx0)).1
          rw [he, hs1] at hs2
          exact absurd hs2 (by simp)
        · by_cases hrange : idx <
              ((process_urls_persistently fetch rng1 ts1 st).1).length
          · have hrel : runRel fetch (process_urls_persistently fetch rng1 ts1 st).1
                (process_urls_persistently fetch rng2 ts2
                  (process_urls_persistently fetch rng1 ts1 st).1).1 :=
              persistAux_rel fetch rng2 ts2 max_total_attempts 0
                (process_urls_persistently fetch rng1 ts1 st).1
            rcases hrel.2 idx (by omega) hrange with he | ⟨hpend, hurl, hiff⟩
            · rw [he, hs1] at hs2
              exact absurd hs2 (by simp)
            · have hjs := hiff.mp hs2
              have hok : urlOk (rowUrl
                  (((process_urls_persistently fetch rng1 ts1 st).1).getD idx []))
                    = true := by
                rw [rowPending_eq, Bool.and_eq_true] at hpend
                exact hpend.1
              have hinv := run_inv fetch rng1 ts1 st idx (by omega) hrange hok hs1
              rw [hinv] at hjs
              exact absurd hjs (by simp)
          · have hlen2 : ((process_urls_persistently fetch rng2 ts2
                (process_urls_persistently fetch rng1 ts1 st).1).1).length
                = ((process_urls_persistently fetch rng1 ts1 st).1).length :=
              persistAux_length fetch rng2 ts2 max_total_attempts 0 _
            have hout : ((process_urls_persistently fetch rng2 ts2
                (process_urls_persistently fetch rng1 ts1 st).1).1).getD idx []
                  = [] :=
              getD_out_of_range _ idx (by omega)
            rw [hout] at hs2
            exact absurd hs2 (by decide)
    · intro hs1
      rw [huntouched idx hs1]
      exact hs1
  · intro row h12 hfresh
    constructor
    · have hfresh2 : containsSubstr "⚡ Fresh Data".data (row[11]?.getD []) = true := by
        simpa using hfresh
      simp [should_process_realtime, hfresh2, Nat.not_lt.mpr h12]
    · simp [should_process_realtime]

/-- Witness for C4 at a concrete store whose single data row is already
successful: the second run leaves it unchanged and the success set is
stable; the realtime predicate skips a fresh row without forced refresh and
re-queues it with forced refresh. -/
theorem C4_rerun_idempotent_witness :
    (((process_urls_persistently (fun _ _ => FetchResult.err FailureKind.transient)
        (fun _ => 0) "t2".data
        (process_urls_persistently (fun _ _ => FetchResult.err FailureKind.transient)
          (fun _ => 0) "t1".data
          [["Header".data],
           ["http://instagram.com/p/A/".data, [], [], [], [], [], [], [], [], [], [],
            "✅ SUCCESS".data]]).1).1).getD 1 []
      = (((process_urls_persistently (fun _ _ => FetchResult.err FailureKind.transient)
          (fun _ => 0) "t1".data
          [["Header".data],
           ["http://instagram.com/p/A/".data, [], [], [], [], [], [], [], [], [], [],
            "✅ SUCCESS".data]]).1).getD 1 [])) ∧
    (should_process_realtime false
        ["u".data, [], [], [], [], [], [], [], [], [], [], "⚡ Fresh Data".data]
      = false ∧
     should_process_realtime true
        ["u".data, [], [], [], [], [], [], [], [], [], [], "⚡ Fresh Data".data]
      = true) := by
  have h := C4_rerun_idempotent (fun _ _ => FetchResult.err FailureKind.transient)
    (fun _ => 0) (fun _ => 0) "t1".data "t2".data
    [["Header".data],
     ["http://instagram.com/p/A/".data, [], [], [], [], [], [], [], [], [], [],
      "✅ SUCCESS".data]]
  exact ⟨h.1 1 (by decide),
    h.2.2 ["u".data, [], [], [], [], [], [], [], [], [], [], "⚡ Fresh Data".data]
      (by decide) (by decide)⟩

end InstaExtract


